import Mathlib

/-!
# Verification of the pulse-db storage engine core

A shallow embedding, in Lean 4, of the storage-engine core of pulse-db:
the LRU replacer, the B+-tree index page, the slotted data page (modelled
at byte level, since its operations manipulate a raw 4096-byte buffer),
the disk manager and the buffer pool.  Each definition is translated from
the corresponding C++ source; the theorems at the end of the file settle
the testable properties of the specification against this embedding.
-/

set_option maxRecDepth 10000

namespace PulseDB

/-! ## LRU replacer (include/pulsedb/cache/policies/lru_replacer.hpp)

`LRUReplacer` keeps a `std::list<size_t> frameList` (most recently
unpinned at the front) and a map from frame id to its unique list node.
We model the structure by the list alone: the map only guarantees that
`pin`/`unpin` erase the unique existing occurrence of a frame, which on
the list view is `List.erase`. -/

namespace LRU

/-- One recorded call in an `LRUReplacer` history. -/
inductive Op where
  | pin (frameId : Nat)
  | unpin (frameId : Nat)
deriving DecidableEq, Repr

/-- The `frameList` of `LRUReplacer`: head is the most recently unpinned frame. -/
abbrev State := List Nat

/-- `LRUReplacer::pin`: erase the frame from the list if tracked, no-op otherwise. -/
def pinOp (s : State) (f : Nat) : State := s.erase f

/-- `LRUReplacer::unpin`: erase any existing entry, then push to the front. -/
def unpinOp (s : State) (f : Nat) : State := f :: s.erase f

/-- `LRUReplacer::victim`: pop and return the back of the list, or `none` when empty. -/
def victim (s : State) : Option Nat × State :=
  match s with
  | [] => (none, [])
  | _ :: _ => (s.getLast?, s.dropLast)

/-- Apply one recorded call. -/
def applyOp (s : State) : Op → State
  | .pin f => pinOp s f
  | .unpin f => unpinOp s f

/-- Run a pin/unpin history from the initial (empty) replacer. -/
def run (ops : List Op) : State := ops.foldl applyOp []

/-- Call `victim` repeatedly (at most `fuel` times), collecting the returned frames. -/
def drainFuel : Nat → State → List Nat
  | 0, _ => []
  | fuel + 1, s =>
    match victim s with
    | (none, _) => []
    | (some v, s') => v :: drainFuel fuel s'

/-- The sequence of frames produced by successive `victim` calls until exhaustion. -/
def drain (s : State) : List Nat := drainFuel s.length s

/-- Position (1-based index of the op, 0 = never) of the last `unpin f` in the history. -/
def lastUnpinPosAux (f : Nat) : List Op → Nat → Nat → Nat
  | [], _, acc => acc
  | op :: rest, i, acc =>
    lastUnpinPosAux f rest (i + 1) (if op = Op.unpin f then i + 1 else acc)

/-- Position of the most recent `unpin f` in `ops` (0 when `f` was never unpinned). -/
def lastUnpinPos (ops : List Op) (f : Nat) : Nat := lastUnpinPosAux f ops 0 0

/-- Position of the last `pin f` or `unpin f` in the history (0 = never touched). -/
def lastTouchPosAux (f : Nat) : List Op → Nat → Nat → Nat
  | [], _, acc => acc
  | op :: rest, i, acc =>
    lastTouchPosAux f rest (i + 1)
      (if op = Op.pin f ∨ op = Op.unpin f then i + 1 else acc)

/-- Position of the most recent call mentioning `f` (0 when never mentioned). -/
def lastTouchPos (ops : List Op) (f : Nat) : Nat := lastTouchPosAux f ops 0 0

/-- A frame is tracked after `ops` when the last call mentioning it was an `unpin`. -/
def tracked (ops : List Op) (f : Nat) : Prop :=
  0 < lastUnpinPos ops f ∧ lastTouchPos ops f = lastUnpinPos ops f

instance (ops : List Op) (f : Nat) : Decidable (tracked ops f) := by
  unfold tracked; infer_instance

/-- The structural invariant of the replacer list after any history: no frame appears
twice, the tracked frames are exactly those whose last mentioning call was an unpin,
and the list is strictly ordered front-to-back by decreasing last-unpin position. -/
def INV (ops : List Op) : Prop :=
  (run ops).Nodup ∧ (∀ f, f ∈ run ops ↔ tracked ops f) ∧
    (run ops).Pairwise (fun a b => lastUnpinPos ops b < lastUnpinPos ops a)

end LRU

/-! ## Machine-integer helpers

`uint16_t` assignments truncate modulo `2^16`; `uint16_t` subtraction of a
smaller unsigned quantity is modelled as addition of the complement. -/

/-- Truncation to `uint16_t`. -/
def t16 (a : Nat) : Nat := a % 65536

/-- `uint16_t` subtraction `a - b` (two's-complement wraparound) for `b < 2^16`. -/
def sub16 (a b : Nat) : Nat := (a + 65536 - b % 65536) % 65536

/-! ## IndexPage (include/pulsedb/storage/index_page.hpp, src/storage/index_page.cpp)

A B+-tree node.  The page buffer holds a 28-byte `IndexHeader` followed by a
dense array of 14-byte `IndexEntry` records; `itemCount` (here
`entries.length`) gives the number of valid entries, so the logical content
of the array is a list.  `insertKey`/`removeKey` locate positions with
`std::lower_bound` and `memmove` the suffix, which on the list view is
ordered insertion/removal. -/

namespace Index

/-- `IndexEntry{key: u64, pageId: u32, offset: u16}`. -/
structure IndexEntry where
  key : Nat
  pageId : Nat
  offset : Nat
deriving DecidableEq, Repr

/-- `sizeof(IndexEntry)` = 8 + 4 + 2. -/
def ENTRY_SIZE : Nat := 14

/-- `IndexPage::INDEX_HEADER_SIZE` = 13-byte common header + 1 + 4 + 4 + 4 + 2. -/
def INDEX_HEADER_SIZE : Nat := 28

/-- `IndexPage::MAX_FREE_SPACE` = 4096 − 28. -/
def MAX_FREE_SPACE : Nat := 4096 - INDEX_HEADER_SIZE

/-- `IndexPage::maxEntries()` = `MAX_FREE_SPACE / sizeof(IndexEntry)` = 290. -/
def maxEntries : Nat := MAX_FREE_SPACE / ENTRY_SIZE

/-- The logical state of an `IndexPage`: its header fields and the valid prefix of
the entry array (`itemCount` = `entries.length`). -/
structure IndexPageM where
  pageId : Nat
  isLeaf : Bool
  level : Nat
  nextPageId : Nat
  prevPageId : Nat
  parentId : Nat
  freeSpace : Nat
  entries : List IndexEntry
deriving DecidableEq, Repr

/-- The `IndexPage(pageId, isLeaf, level)` constructor: zeroed links,
`freeSpace = MAX_FREE_SPACE`, no entries. -/
def newIndexPage (pageId : Nat) (isLeaf : Bool) (level : Nat) : IndexPageM :=
  { pageId := pageId, isLeaf := isLeaf, level := level,
    nextPageId := 0, prevPageId := 0, parentId := 0,
    freeSpace := MAX_FREE_SPACE, entries := [] }

/-- The `std::lower_bound` insertion of `IndexPage::insertKey`: walk past entries with
`entry.key < key`, then splice in the new entry (`offset = 0`). -/
def insertSorted (key pid : Nat) : List IndexEntry → List IndexEntry
  | [] => [⟨key, pid, 0⟩]
  | e :: rest =>
    if e.key < key then e :: insertSorted key pid rest
    else ⟨key, pid, 0⟩ :: e :: rest

/-- `IndexPage::insertKey`: refuse when `freeSpace < sizeof(IndexEntry)`, otherwise
insert at the lower bound and account 14 bytes. -/
def insertKey (p : IndexPageM) (key pid : Nat) : Bool × IndexPageM :=
  if p.freeSpace < ENTRY_SIZE then (false, p)
  else (true, { p with entries := insertSorted key pid p.entries,
                       freeSpace := p.freeSpace - ENTRY_SIZE })

/-- The `std::lower_bound` removal of `IndexPage::removeKey`: `none` when the lower
bound misses `key`, otherwise the list without that entry. -/
def removeSorted (key : Nat) : List IndexEntry → Option (List IndexEntry)
  | [] => none
  | e :: rest =>
    if e.key < key then (removeSorted key rest).map (e :: ·)
    else if e.key = key then some rest else none

/-- `IndexPage::removeKey`: shift the suffix left and give back 14 bytes
(`freeSpace` is a `uint16_t`, hence the truncation). -/
def removeKey (p : IndexPageM) (key : Nat) : Bool × IndexPageM :=
  match removeSorted key p.entries with
  | none => (false, p)
  | some l => (true, { p with entries := l, freeSpace := t16 (p.freeSpace + ENTRY_SIZE) })

/-- `IndexPage::split(newPage)`: move the upper half of the entries into `newPage`,
rewire the sibling links, and return the pre-split median key (`splitPoint->key`
reads the unmodified source array; 0 stands for the uninitialised read when the
page is empty). -/
def split (p newPage : IndexPageM) : IndexPageM × IndexPageM × Nat :=
  let mid := p.entries.length / 2
  let moved := p.entries.drop mid
  let median := match moved with
    | [] => 0
    | e :: _ => e.key
  ({ p with entries := p.entries.take mid,
            nextPageId := newPage.pageId,
            freeSpace := t16 (p.freeSpace + moved.length * ENTRY_SIZE) },
   { newPage with entries := moved,
                  nextPageId := p.nextPageId,
                  prevPageId := p.pageId,
                  freeSpace := sub16 newPage.freeSpace (moved.length * ENTRY_SIZE) },
   median)

/-- One public mutating call on an index page. -/
inductive IOp where
  | ins (key pid : Nat)
  | rem (key : Nat)
deriving DecidableEq, Repr

/-- Apply one call (discarding the returned bool). -/
def applyIOp (p : IndexPageM) : IOp → IndexPageM
  | .ins k pid => (insertKey p k pid).2
  | .rem k => (removeKey p k).2

/-- Run a call sequence. -/
def runIOps (p : IndexPageM) (ops : List IOp) : IndexPageM := ops.foldl applyIOp p

/-- The key sequence of the entry array. -/
def keys (p : IndexPageM) : List Nat := p.entries.map (·.key)

/-- The side condition of the claim: no `insertKey` call uses a key already present
in the page at the moment of the call. -/
def noDupInserts (p : IndexPageM) : List IOp → Bool
  | [] => true
  | .ins k pid :: rest =>
    decide (k ∉ keys p) && noDupInserts (applyIOp p (.ins k pid)) rest
  | .rem k :: rest => noDupInserts (applyIOp p (.rem k)) rest

/-- Well-formedness carried through the induction: strictly ascending keys and the
exact `freeSpace`/`itemCount` accounting. -/
def WFIdx (p : IndexPageM) : Prop :=
  (keys p).Pairwise (· < ·) ∧ p.freeSpace + ENTRY_SIZE * p.entries.length = MAX_FREE_SPACE

end Index

/-! ## DiskManager (include/pulsedb/storage/disk_manager.hpp, src/storage/disk_manager.cpp)

The database file is a byte store: a 28-byte little-endian packed
`DatabaseHeader` at offset 0, then page `i`'s 4096-byte image at offset
`28 + i * 4096`.  The manager keeps an in-memory header, a dirty flag and an
in-memory `std::vector<uint32_t> freePages` used as a stack
(`allocatePage` pops from the back, `deallocatePage` pushes to the back). -/

namespace Disk

/-- The database file as a byte store. -/
abbrev File := Nat → Nat

/-- Overwrite `bs.length` bytes of `f` starting at `off`. -/
def writeBytes (f : File) (off : Nat) (bs : List Nat) : File :=
  fun a => if off ≤ a ∧ a < off + bs.length then bs.getD (a - off) 0 else f a

/-- Read `n` bytes of `f` starting at `off`. -/
def readBytes (f : File) (off n : Nat) : List Nat :=
  (List.range n).map fun i => f (off + i)

/-- Little-endian `uint32_t` read. -/
def read32 (f : File) (off : Nat) : Nat :=
  f off + 256 * f (off + 1) + 65536 * f (off + 2) + 16777216 * f (off + 3)

/-- Little-endian `uint64_t` read. -/
def read64 (f : File) (off : Nat) : Nat :=
  read32 f off + 4294967296 * read32 f (off + 4)

/-- `DatabaseHeader` (28 bytes packed). -/
structure DatabaseHeader where
  magic : Nat
  version : Nat
  pageSize : Nat
  pageCount : Nat
  firstFreePage : Nat
  lastLsn : Nat
deriving DecidableEq, Repr

/-- `DiskManager::DB_MAGIC`. -/
def DB_MAGIC : Nat := 0x504442

/-- `DiskManager::DB_VERSION`. -/
def DB_VERSION : Nat := 1

/-- `Page::PAGE_SIZE`. -/
def PAGE_SIZE : Nat := 4096

/-- `sizeof(DatabaseHeader)`. -/
def DB_HEADER_SIZE : Nat := 28

/-- The 28 bytes of a packed little-endian `DatabaseHeader`. -/
def serHeader (h : DatabaseHeader) : List Nat :=
  [h.magic % 256, h.magic / 256 % 256, h.magic / 65536 % 256, h.magic / 16777216 % 256,
   h.version % 256, h.version / 256 % 256, h.version / 65536 % 256,
     h.version / 16777216 % 256,
   h.pageSize % 256, h.pageSize / 256 % 256, h.pageSize / 65536 % 256,
     h.pageSize / 16777216 % 256,
   h.pageCount % 256, h.pageCount / 256 % 256, h.pageCount / 65536 % 256,
     h.pageCount / 16777216 % 256,
   h.firstFreePage % 256, h.firstFreePage / 256 % 256, h.firstFreePage / 65536 % 256,
     h.firstFreePage / 16777216 % 256,
   h.lastLsn % 256, h.lastLsn / 256 % 256, h.lastLsn / 65536 % 256,
     h.lastLsn / 16777216 % 256,
   h.lastLsn / 4294967296 % 256, h.lastLsn / 1099511627776 % 256,
     h.lastLsn / 281474976710656 % 256, h.lastLsn / 72057594037927936 % 256]

/-- The header read back from file bytes `[0, 28)`. -/
def parseHeader (f : File) : DatabaseHeader :=
  { magic := read32 f 0, version := read32 f 4, pageSize := read32 f 8,
    pageCount := read32 f 12, firstFreePage := read32 f 16, lastLsn := read64 f 20 }

/-- `DiskManager::readHeader`: parse and validate magic, version and page size
(the C++ throws on mismatch; we return `none`). -/
def readHeader (f : File) : Option DatabaseHeader :=
  let h := parseHeader f
  if h.magic ≠ DB_MAGIC then none
  else if h.version ≠ DB_VERSION then none
  else if h.pageSize ≠ PAGE_SIZE then none
  else some h

/-- `DiskManager::writeHeader`: write the 28 packed header bytes at offset 0. -/
def writeHeader (f : File) (h : DatabaseHeader) : File := writeBytes f 0 (serHeader h)

/-- The in-memory state of a `DiskManager`. -/
structure DiskManagerM where
  dirty : Bool
  header : DatabaseHeader
  freePages : List Nat
deriving DecidableEq, Repr

/-- `DiskManager::allocatePage`: pop the back of `freePages` if non-empty, else
return `header.pageCount` and post-increment it (a `uint32_t`). -/
def allocatePage (dm : DiskManagerM) : Nat × DiskManagerM :=
  match dm.freePages.getLast? with
  | some pid => (pid, { dm with freePages := dm.freePages.dropLast, dirty := true })
  | none =>
    (dm.header.pageCount,
     { dm with
        header := { dm.header with pageCount := (dm.header.pageCount + 1) % 4294967296 },
        dirty := true })

/-- `DiskManager::deallocatePage`: reject ids `≥ pageCount`, else push to the
in-memory free list. -/
def deallocatePage (dm : DiskManagerM) (pid : Nat) : Bool × DiskManagerM :=
  if dm.header.pageCount ≤ pid then (false, dm)
  else (true, { dm with freePages := dm.freePages ++ [pid], dirty := true })

/-- `DiskManager::~DiskManager`: if dirty, write the header (then sync, which
writes nothing further). -/
def closeDM (dm : DiskManagerM) (f : File) : File :=
  if dm.dirty then writeHeader f dm.header else f

/-- `DiskManager(path, create=false)`: read and validate only the header; the
free-page list starts empty. -/
def openExisting (f : File) : Option DiskManagerM :=
  (readHeader f).map fun h => { dirty := false, header := h, freePages := [] }

/-- `DiskManager::getOffset`: page `i` occupies `[28 + i*4096, 28 + (i+1)*4096)`. -/
def getOffset (pid : Nat) : Nat := DB_HEADER_SIZE + pid * PAGE_SIZE

/-- Byte `i` of a page image. -/
def imageByte (img : List Nat) (i : Nat) : Nat := img.getD i 0

/-- The `type` field (byte 0) of a page image. -/
def imageType (img : List Nat) : Nat := imageByte img 0

/-- The `pageId` field (little-endian bytes 1..4) of a page image. -/
def imagePageId (img : List Nat) : Nat :=
  imageByte img 1 + 256 * imageByte img 2 + 65536 * imageByte img 3 +
    16777216 * imageByte img 4

/-- `DiskManager::flushPage`: write the full 4096-byte buffer at the page's offset. -/
def flushPage (f : File) (img : List Nat) : File :=
  writeBytes f (getOffset (imagePageId img)) img

/-- `DiskManager::fetchPage`: reject ids `≥ pageCount`; read 4096 bytes at the
page's offset; dispatch on byte 0 — `DATA` (2) and `INDEX` (1) produce a page
object whose whole buffer is then overwritten with the bytes read (both
`memcpy`s together copy all 4096 bytes), any other type byte fails. -/
def fetchPage (f : File) (h : DatabaseHeader) (pid : Nat) : Option (List Nat) :=
  if h.pageCount ≤ pid then none
  else
    let buf := readBytes f (getOffset pid) PAGE_SIZE
    if imageType buf = 2 ∨ imageType buf = 1 then some buf else none

end Disk

/-! ## DataPage (include/pulsedb/storage/data_page.hpp, src/storage/data_page.cpp)

The slotted data page manipulates its raw 4096-byte buffer through packed
structs, and the slot-array accessor `slots()` recomputes its base address
from the *current* `directoryCount`
(`data + DATA_HEADER_SIZE + directoryCount * PAIR_SIZE`), so the embedding
is at byte level: the buffer is a function from offsets to byte values.

Packed field offsets: common `PageHeader` — `type`@0 (u8), `pageId`@1 (u32),
`lsn`@5 (u32), `freeSpace`@9 (u16), `itemCount`@11 (u16); `DataHeader` —
`freeSpaceOffset`@13, `firstSlotOffset`@15, `firstFreeSlot`@17,
`slotCount`@19, `directoryCount`@21 (all u16); `DATA_HEADER_SIZE` = 23.
`SlotPair{key: u32, slotId: u16}` is 6 bytes, `SlotEntry{offset, length,
flags : u16}` is 6 bytes, `RecordHeader{length, type : u16}` is 4 bytes. -/

namespace Data

/-- The page buffer (`data`): a byte store indexed by offset. -/
abbrev Mem := Nat → Nat

/-- Write one byte. -/
def wr8 (m : Mem) (a v : Nat) : Mem := fun x => if x = a then v % 256 else m x

/-- Read a little-endian `uint16_t`. -/
def rd16 (m : Mem) (a : Nat) : Nat := m a + 256 * m (a + 1)

/-- Write a little-endian `uint16_t` (stores `v % 2^16`). -/
def wr16 (m : Mem) (a v : Nat) : Mem := wr8 (wr8 m a v) (a + 1) (v / 256)

/-- Read a little-endian `uint32_t`. -/
def rd32 (m : Mem) (a : Nat) : Nat :=
  m a + 256 * m (a + 1) + 65536 * m (a + 2) + 16777216 * m (a + 3)

/-- Write a little-endian `uint32_t`. -/
def wr32 (m : Mem) (a v : Nat) : Mem :=
  wr8 (wr8 (wr8 (wr8 m a v) (a + 1) (v / 256)) (a + 2) (v / 65536)) (a + 3) (v / 16777216)

/-- `memcpy(data + a, src, src.length)` from a byte list. -/
def writeList (m : Mem) (a : Nat) : List Nat → Mem
  | [] => m
  | b :: rest => writeList (wr8 m a b) (a + 1) rest

/-- `memcpy(dst + dstOff, src + srcOff, len)` between two buffers. -/
def copyBytes (dst : Mem) (dstOff : Nat) (src : Mem) (srcOff len : Nat) : Mem :=
  (List.range len).foldl (fun d j => wr8 d (dstOff + j) (src (srcOff + j))) dst

/-- `INVALID_SLOT`. -/
def INVALID_SLOT : Nat := 65535

/-- `freeSpace` header field. -/
def freeSpace (m : Mem) : Nat := rd16 m 9

/-- `itemCount` header field. -/
def itemCount (m : Mem) : Nat := rd16 m 11

/-- `freeSpaceOffset` header field. -/
def freeSpaceOffset (m : Mem) : Nat := rd16 m 13

/-- `firstFreeSlot` header field. -/
def firstFreeSlot (m : Mem) : Nat := rd16 m 17

/-- `slotCount` header field. -/
def slotCount (m : Mem) : Nat := rd16 m 19

/-- `directoryCount` header field. -/
def directoryCount (m : Mem) : Nat := rd16 m 21

/-- The address of `slots()[i]`: the base is recomputed from the current
`directoryCount` (`data + DATA_HEADER_SIZE + directoryCount * PAIR_SIZE`). -/
def slotAddr (m : Mem) (i : Nat) : Nat := 23 + directoryCount m * 6 + 6 * i

/-- `slots()[i].offset`. -/
def slotOffset (m : Mem) (i : Nat) : Nat := rd16 m (slotAddr m i)

/-- `slots()[i].length`. -/
def slotLength (m : Mem) (i : Nat) : Nat := rd16 m (slotAddr m i + 2)

/-- `slots()[i].flags`. -/
def slotFlags (m : Mem) (i : Nat) : Nat := rd16 m (slotAddr m i + 4)

/-- `SlotFlags::isSet(slots()[i].flags, DELETED)` with `DELETED = 0x0001`. -/
def slotDeleted (m : Mem) (i : Nat) : Bool := slotFlags m i % 2 = 1

/-- The `DataPage(pageId)` constructor: the base `Page` constructor zeroes the
buffer and writes the common header (modelled from the spec, §4.1: the copy of
`page.cpp` in the snapshot is a stale revision of the class), then the
`DataPage` constructor sets `freeSpaceOffset = 4096`,
`freeSpace = MAX_FREE_SPACE = 4096 − 23`, `firstSlotOffset = 23`,
`firstFreeSlot = INVALID_SLOT` and `slotCount = 0`. -/
def newDataPage (pageId : Nat) : Mem :=
  wr16 (wr16 (wr16 (wr16 (wr16 (wr32 (wr8 (fun _ => 0) 0 2) 1 pageId)
    13 4096) 9 4073) 15 23) 17 INVALID_SLOT) 19 0

/-- `DataPage::spaceNeeded`: `SLOT_SIZE + RECORD_HEADER_SIZE + length`
(`uint16_t` return). -/
def spaceNeeded (length : Nat) : Nat := t16 (6 + 4 + length)

/-- `DataPage::findFreeSlot`: pop the free-slot list if non-empty (the next head
comes from the slot's `offset` field), else claim the next fresh slot index if
the new slot entry would not reach `freeSpaceOffset`. -/
def findFreeSlot (m : Mem) : Option (Nat × Mem) :=
  if firstFreeSlot m ≠ INVALID_SLOT then
    some (firstFreeSlot m, wr16 m 17 (slotOffset m (firstFreeSlot m)))
  else
    let slotsOffset := t16 (23 + directoryCount m * 6)
    let newSlotOffset := t16 (slotsOffset + slotCount m * 6)
    if freeSpaceOffset m ≤ newSlotOffset + 6 then none
    else some (slotCount m, wr16 m 19 (slotCount m + 1))

/-- `DataPage::insertPair`: fail if the new directory pair would reach
`freeSpaceOffset`; else write the pair at `dir[directoryCount]` and increment
`directoryCount`. -/
def insertPair (m : Mem) (key slotId : Nat) : Bool × Mem :=
  let newDirOffset := t16 (23 + directoryCount m * 6)
  if freeSpaceOffset m ≤ newDirOffset + 6 then (false, m)
  else
    (true, wr16 (wr16 (wr32 m (23 + directoryCount m * 6) key)
      (23 + directoryCount m * 6 + 4) slotId) 21 (directoryCount m + 1))

/-- `DataPage::removeLastPair`. -/
def removeLastPair (m : Mem) : Mem :=
  if 0 < directoryCount m then wr16 m 21 (directoryCount m - 1) else m

/-- `DataPage::allocateSpace`: move `freeSpaceOffset` down by `size` (`uint16_t`
wraparound), failing when it would run into the end of the slot array. -/
def allocateSpace (m : Mem) (size : Nat) : Option (Nat × Mem) :=
  let newOffset := sub16 (freeSpaceOffset m) size
  let slotsEnd := t16 (23 + directoryCount m * 6 + slotCount m * 6)
  if newOffset < slotsEnd then none
  else some (newOffset, wr16 m 13 newOffset)

/-- `DataPage::insertRecord`: check space, take a slot, append the directory
pair, allocate record space (rolling back the pair on failure), write the
record header and payload, fill the slot entry (through `slots()`, whose base
has moved if the directory just grew), and account space and item count. -/
def insertRecord (m : Mem) (key : Nat) (payload : List Nat) (rtype : Nat) :
    Option Nat × Mem :=
  let length := payload.length
  let totalSpace := t16 (spaceNeeded length + 6)
  if ¬ totalSpace ≤ freeSpace m then (none, m)
  else
    match findFreeSlot m with
    | none => (none, m)
    | some (slotId, m1) =>
      match insertPair m1 key slotId with
      | (false, m2) => (none, m2)
      | (true, m2) =>
        match allocateSpace m2 (t16 (length + 4)) with
        | none => (none, removeLastPair m2)
        | some (offset, m3) =>
          let m6 := writeList (wr16 (wr16 m3 offset length) (offset + 2) rtype)
            (offset + 4) payload
          let a := slotAddr m6 slotId
          let m9 := wr16 (wr16 (wr16 m6 a offset) (a + 2) (length + 4)) (a + 4) 0
          let m10 := wr16 m9 9 (sub16 (freeSpace m9) totalSpace)
          (some slotId, wr16 m10 11 (itemCount m10 + 1))

/-- `DataPage::deleteRecord`: range and double-delete checks, set the `DELETED`
flag, link the slot into the free list through its `offset` field, decrement
`itemCount`. -/
def deleteRecord (m : Mem) (slotId : Nat) : Bool × Mem :=
  if slotCount m ≤ slotId then (false, m)
  else if slotDeleted m slotId then (false, m)
  else
    let a := slotAddr m slotId
    let m1 := wr16 m (a + 4) (Nat.lor (slotFlags m slotId) 1)
    let m2 := wr16 m1 a (firstFreeSlot m1)
    let m3 := wr16 m2 17 slotId
    (true, wr16 m3 11 (sub16 (itemCount m3) 1))

/-- `DataPage::getRecord`: the record payload view — `length` bytes starting
4 bytes past the slot's `offset`, with the length read from the record header. -/
def getRecord (m : Mem) (slotId : Nat) : Option (List Nat) :=
  if slotCount m ≤ slotId then none
  else if slotDeleted m slotId then none
  else
    let off := slotOffset m slotId
    some ((List.range (rd16 m off)).map fun i => m (off + 4 + i))

/-- `DataPage::getRecordType`. -/
def getRecordType (m : Mem) (slotId : Nat) : Option Nat :=
  if slotCount m ≤ slotId then none
  else if slotDeleted m slotId then none
  else some (rd16 m (slotOffset m slotId + 2))

/-- `DataPage::getSlotId`: linear scan of the directory for the first pair with
the given key. -/
def getSlotId (m : Mem) (key : Nat) : Option Nat :=
  ((List.range (directoryCount m)).find? fun i => rd32 m (23 + 6 * i) == key).map
    fun i => rd16 m (23 + 6 * i + 4)

/-- `DataPage::compact`: pass 1 copies each live record into a scratch buffer at
`writeOffset -= slot.length` and rewrites `slot.offset`; then
`bytesFreed = freeSpaceOffset - writeOffset` (`uint16_t`), and if positive the
scratch tail `[writeOffset, 4096)` is copied back, `freeSpaceOffset` is set to
`writeOffset` and `freeSpace` incremented; finally the free-slot list is
rebuilt by chaining the deleted slots in index order through their `offset`
fields (the terminal slot's `offset` is left as it was). -/
def compact (m : Mem) : Nat × Mem :=
  let sc := slotCount m
  let pass1 := (List.range sc).foldl
    (fun (st : Mem × Mem × Nat) i =>
      if slotDeleted st.1 i then st
      else
        let len := slotLength st.1 i
        let wo := sub16 st.2.2 len
        (wr16 st.1 (slotAddr st.1 i) wo,
         copyBytes st.2.1 wo st.1 (slotOffset st.1 i) len, wo))
    (m, fun _ => 0, 4096)
  let bytesFreed := sub16 (freeSpaceOffset pass1.1) pass1.2.2
  let pm2 :=
    if 0 < bytesFreed then
      wr16 (wr16 (copyBytes pass1.1 pass1.2.2 pass1.2.1 pass1.2.2 (4096 - pass1.2.2))
        13 pass1.2.2) 9 (t16 (freeSpace pass1.1 + bytesFreed))
    else pass1.1
  let rebuilt := (List.range sc).foldl
    (fun (st : Mem × Nat) i =>
      if slotDeleted st.1 i then
        if st.2 = INVALID_SLOT then (wr16 st.1 17 i, i)
        else (wr16 st.1 (slotAddr st.1 st.2) i, i)
      else st)
    (wr16 pm2 17 INVALID_SLOT, INVALID_SLOT)
  (bytesFreed, rebuilt.1)

/-- `DataPage::needsCompact`: `usedSpace = PAGE_SIZE - freeSpace` (`uint16_t`),
`actualData = itemCount * RECORD_HEADER_SIZE + Σ slots()[i].length` over
non-deleted slots (`uint16_t` accumulation), then
`usedSpace > 0 && (usedSpace - actualData) * 4 > usedSpace` in `int`
arithmetic. -/
def needsCompact (m : Mem) : Bool :=
  let usedSpace := sub16 4096 (freeSpace m)
  let actualData := (List.range (slotCount m)).foldl
    (fun acc i => if slotDeleted m i then acc else t16 (acc + slotLength m i))
    (t16 (itemCount m * 4))
  decide (0 < usedSpace) &&
    decide (((usedSpace : Int) - (actualData : Int)) * 4 > (usedSpace : Int))

/-- The buffer bytes occupied by the live records among the first `n` slots:
the sum of the live slots' `length` fields (each record's header plus payload). -/
def liveRecordBytesUpTo (m : Mem) (n : Nat) : Nat :=
  (List.range n).foldl
    (fun acc i => if slotDeleted m i then acc else acc + slotLength m i) 0

/-- The total number of buffer bytes occupied by the live (non-deleted) records.
This is the `liveRecordBytes` of the claim. -/
def liveRecordBytes (m : Mem) : Nat := liveRecordBytesUpTo m (slotCount m)

/-- The fragmentation predicate exactly as the claim words it (for comparison
with `needsCompact`): `usedSpace > 0` and
`(usedSpace − liveRecordBytes) * 4 > usedSpace`. -/
def needsCompactClaim (m : Mem) : Bool :=
  let usedSpace := 4096 - freeSpace m
  decide (0 < usedSpace) &&
    decide (((usedSpace : Int) - (liveRecordBytes m : Int)) * 4 > (usedSpace : Int))

end Data

/-! ## BufferPool (include/pulsedb/cache/buffer_pool.hpp, src/cache/buffer_pool.cpp,
include/pulsedb/cache/frame.hpp)

The pool holds a fixed vector of frames, an `unordered_map` from page id to
frame index (an association list with unique keys here), and an
`LRUReplacer` (the list model above).  Disk outcomes are oracle parameters
of the operations: `readOk`/`flushOk` stand for the success of
`DiskManager::fetchPage`/`flushPage`, and a `create` call carries the page
id handed out by `allocatePage` (`allocOk = false` stands for
`INVALID_PAGE_ID`).  `DiskManager::fetchPage(pid)` on a well-formed file
returns a page whose id is `pid` (the header bytes come from page `pid`'s
slot), so the read oracle produces pages with matching ids, and
`allocatePage` never returns a resident id (resident ids are neither free
nor beyond `pageCount`), so the allocation oracle is guarded likewise. -/

namespace Pool

/-- A cached page object: its id and an opaque stand-in for its buffer contents. -/
structure PPage where
  pid : Nat
  content : Nat
deriving DecidableEq, Repr

/-- `Frame`: at most one owned page, the cached page id, pin count, dirty bit. -/
structure PFrame where
  page : Option PPage
  pageId : Nat
  pinCount : Nat
  dirty : Bool
deriving DecidableEq, Repr

/-- A default-constructed frame. -/
def emptyFrame : PFrame := ⟨none, 0, 0, false⟩

/-- `Frame::reset(newPage)`: replace the page, cache its id (0 when absent),
zero the pin count, clear dirty. -/
def frameReset (pg : Option PPage) : PFrame :=
  ⟨pg, match pg with | some p => p.pid | none => 0, 0, false⟩

/-- The state of a `BufferPool`. -/
structure PoolState where
  frames : List PFrame
  pageTable : List (Nat × Nat)
  replacer : LRU.State
deriving DecidableEq, Repr

/-- A pool of `n` frames, nothing resident. -/
def initPool (n : Nat) : PoolState := ⟨List.replicate n emptyFrame, [], []⟩

/-- `pageTable.find(pid)`: the value of the unique entry with key `pid`. -/
def lookupPT : List (Nat × Nat) → Nat → Option Nat
  | [], _ => none
  | e :: rest, pid => if e.1 = pid then some e.2 else lookupPT rest pid

/-- `pageTable.erase(pid)`. -/
def erasePT (t : List (Nat × Nat)) (pid : Nat) : List (Nat × Nat) :=
  t.filter fun e => ¬ e.1 = pid

/-- `pageTable[pid] = idx` (insert or overwrite). -/
def insertPT (t : List (Nat × Nat)) (pid idx : Nat) : List (Nat × Nat) :=
  erasePT t pid ++ [(pid, idx)]

/-- `frames[i]`. -/
def getFrame (s : PoolState) (i : Nat) : PFrame := s.frames.getD i emptyFrame

/-- `frames[i].pin()`. -/
def pinFrame (s : PoolState) (i : Nat) : PoolState :=
  let fr := getFrame s i
  let fr2 : PFrame := { fr with pinCount := fr.pinCount + 1 }
  { s with frames := s.frames.set i fr2 }

/-- `BufferPool::findVictim`: first scan for an unused frame; otherwise pop the
replacer. -/
def findVictim (s : PoolState) : Option Nat × PoolState :=
  match (List.range s.frames.length).find? (fun i => (getFrame s i).page.isNone) with
  | some i => (some i, s)
  | none =>
    match LRU.victim s.replacer with
    | (some v, r) => (some v, { s with replacer := r })
    | (none, _) => (none, s)

/-- `BufferPool::evictFrame`: empty frames succeed immediately; pinned frames
refuse; dirty frames are written back first (`flushOk` is the disk outcome),
failing without any state change; then the old occupant is dropped from the
page table and the frame is reset. -/
def evictFrame (s : PoolState) (frameId : Nat) (flushOk : Bool) : Bool × PoolState :=
  let fr := getFrame s frameId
  if fr.page.isNone then (true, s)
  else if fr.pinCount ≠ 0 then (false, s)
  else if fr.dirty ∧ flushOk = false then (false, s)
  else
    (true, { s with pageTable := erasePT s.pageTable fr.pageId,
                    frames := s.frames.set frameId (frameReset none) })

/-- `BufferPool::fetchPage`.  Hit: pin the frame and remove it from the
replacer.  Miss: find a victim (possibly popping the replacer), read from disk
(`readOk`, producing page `⟨pid, content⟩`), evict the victim, install, pin,
update the page table, pin in the replacer.  Each failure returns `none` with
the state as it stands at that point. -/
def fetchPage (s : PoolState) (pid content : Nat) (readOk flushOk : Bool) :
    Option PPage × PoolState :=
  match lookupPT s.pageTable pid with
  | some idx =>
    let s1 := pinFrame s idx
    ((getFrame s1 idx).page, { s1 with replacer := LRU.pinOp s1.replacer idx })
  | none =>
    match findVictim s with
    | (none, s1) => (none, s1)
    | (some v, s1) =>
      if readOk = false then (none, s1)
      else
        match evictFrame s1 v flushOk with
        | (false, s2) => (none, s2)
        | (true, s2) =>
          let s3 := pinFrame { s2 with
            frames := s2.frames.set v (frameReset (some ⟨pid, content⟩)) } v
          (some ⟨pid, content⟩,
           { s3 with pageTable := insertPT s3.pageTable pid v,
                     replacer := LRU.pinOp s3.replacer v })

/-- The tail of a `fetchPage` miss once a victim `v` is chosen and the read
succeeded: evict `v`, install the read page, pin, update table and replacer
(a verbatim factoring of the last `match` of `fetchPage`). -/
def fetchMissEvict (s1 : PoolState) (v pid content : Nat) (flushOk : Bool) :
    Option PPage × PoolState :=
  match evictFrame s1 v flushOk with
  | (false, s2) => (none, s2)
  | (true, s2) =>
    let s3 := pinFrame { s2 with
      frames := s2.frames.set v (frameReset (some ⟨pid, content⟩)) } v
    (some ⟨pid, content⟩,
     { s3 with pageTable := insertPT s3.pageTable pid v,
               replacer := LRU.pinOp s3.replacer v })

/-- `BufferPool::createPage`: allocate an id (`allocOk = false` models
`INVALID_PAGE_ID`), find and evict a victim, construct the page
(`validType = false` models `PageType::INVALID`, rejected only after
eviction), install, pin, mark dirty, update the table and replacer.  The code
never checks whether the allocated id is already resident (the free list can
hold a resident id after `deletePage` of a cached page that is later fetched
again); `pageTable[newPageId] = victim` then simply rebinds the entry,
orphaning the frame that still caches the old copy. -/
def createPage (s : PoolState) (newPid content : Nat)
    (validType flushOk allocOk : Bool) : Option PPage × PoolState :=
  if allocOk = false then (none, s)
  else
    match findVictim s with
    | (none, s1) => (none, s1)
    | (some v, s1) =>
      match evictFrame s1 v flushOk with
      | (false, s2) => (none, s2)
      | (true, s2) =>
        if validType = false then (none, s2)
        else
          let s3 := pinFrame { s2 with
            frames := s2.frames.set v (frameReset (some ⟨newPid, content⟩)) } v
          let fr4 : PFrame := { getFrame s3 v with dirty := true }
          let s4 := { s3 with frames := s3.frames.set v fr4 }
          (some ⟨newPid, content⟩,
           { s4 with pageTable := insertPT s4.pageTable newPid v,
                     replacer := LRU.pinOp s4.replacer v })

/-- `BufferPool::unpinPage`: fail when not resident; decrement the pin count
(`Frame::unpin` saturates at zero), OR in the dirty bit, and when the count
reaches zero make the frame evictable. -/
def unpinPage (s : PoolState) (pid : Nat) (dirty : Bool) : Bool × PoolState :=
  match lookupPT s.pageTable pid with
  | none => (false, s)
  | some idx =>
    let fr := getFrame s idx
    let fr2 := { fr with pinCount := fr.pinCount - 1,
                         dirty := fr.dirty || dirty }
    let s1 := { s with frames := s.frames.set idx fr2 }
    if fr2.pinCount = 0 then
      (true, { s1 with replacer := LRU.unpinOp s1.replacer idx })
    else (true, s1)

/-- `BufferPool::flushPage`: fail when not resident; write back when dirty
(`flushOk` is the disk outcome) and clear the dirty bit. -/
def flushPageOp (s : PoolState) (pid : Nat) (flushOk : Bool) : Bool × PoolState :=
  match lookupPT s.pageTable pid with
  | none => (false, s)
  | some idx =>
    let fr := getFrame s idx
    if fr.dirty then
      if flushOk = false then (false, s)
      else (true, { s with frames := s.frames.set idx { fr with dirty := false } })
    else (true, s)

/-- `BufferPool::flushAll`: flush every dirty resident page, skipping (and
keeping dirty) the ones whose write fails. -/
def flushAllOp (s : PoolState) (oks : Nat → Bool) : PoolState :=
  s.pageTable.foldl (fun st e =>
    let fr := getFrame st e.2
    if fr.dirty then
      if oks e.1 then { st with frames := st.frames.set e.2 { fr with dirty := false } }
      else st
    else st) s

/-- `BufferPool::deletePage`: refuse if resident and pinned; if resident and
unpinned, reset the frame, erase the table entry and pin the frame index in
the replacer (the C++ reads the erased iterator here — we take the snapshot
value, which is the documented intent); then deallocate on disk
(`deallocOk`). -/
def deletePage (s : PoolState) (pid : Nat) (deallocOk : Bool) : Bool × PoolState :=
  match lookupPT s.pageTable pid with
  | some idx =>
    if (getFrame s idx).pinCount ≠ 0 then (false, s)
    else
      let s1 := { s with frames := s.frames.set idx (frameReset none),
                         pageTable := erasePT s.pageTable pid,
                         replacer := LRU.pinOp s.replacer idx }
      (deallocOk, s1)
  | none => (deallocOk, s)

/-- One public `BufferPool` call together with its disk-oracle outcomes. -/
inductive POp where
  | fetch (pid content : Nat) (readOk flushOk : Bool)
  | create (newPid content : Nat) (validType flushOk allocOk : Bool)
  | unpin (pid : Nat) (dirty : Bool)
  | flushOne (pid : Nat) (flushOk : Bool)
  | flushAll (okPids : List Nat)
  | delete (pid : Nat) (deallocOk : Bool)

/-- Apply one call (discarding the returned value). -/
def applyPOp (s : PoolState) : POp → PoolState
  | .fetch pid c r f => (fetchPage s pid c r f).2
  | .create pid c v f a => (createPage s pid c v f a).2
  | .unpin pid d => (unpinPage s pid d).2
  | .flushOne pid f => (flushPageOp s pid f).2
  | .flushAll oks => flushAllOp s fun pid => oks.contains pid
  | .delete pid d => (deletePage s pid d).2

/-- Run a call sequence on a fresh pool of `n` frames. -/
def runPool (n : Nat) (ops : List POp) : PoolState := ops.foldl applyPOp (initPool n)

/-- The structural invariant of reachable pool states: replacer members are
valid, resident and unpinned frame indices, with no duplicates; page-table
entries point at resident frames caching that page id, with no duplicate keys;
and non-resident frames are unpinned.  (The converse direction — every
resident frame being reachable through the table — does not hold: `createPage`
of an id that is still resident rebinds the table entry and orphans the old
frame.) -/
def WFPool (s : PoolState) : Prop :=
  (∀ i ∈ s.replacer, i < s.frames.length ∧ (getFrame s i).page.isSome ∧
    (getFrame s i).pinCount = 0) ∧
  s.replacer.Nodup ∧
  (∀ e ∈ s.pageTable, e.2 < s.frames.length ∧ (getFrame s e.2).page.isSome ∧
    (getFrame s e.2).pageId = e.1) ∧
  (s.pageTable.map (·.1)).Nodup ∧
  (∀ i, i < s.frames.length → (getFrame s i).page = none →
    (getFrame s i).pinCount = 0)

end Pool

-- ===== (further component definitions are added above this line) =====

/-! ## Proofs -/

namespace LRU

theorem run_append (ops : List Op) (op : Op) :
    run (ops ++ [op]) = applyOp (run ops) op := by
  simp [run, List.foldl_append]

theorem lastUnpinPosAux_append (f : Nat) (op : Op) (l : List Op) :
    ∀ i acc, lastUnpinPosAux f (l ++ [op]) i acc =
      if op = Op.unpin f then i + l.length + 1 else lastUnpinPosAux f l i acc := by
  induction l with
  | nil =>
    intro i acc
    by_cases h : op = Op.unpin f <;> simp [lastUnpinPosAux, h]
  | cons hd tl ih =>
    intro i acc
    have hstep : lastUnpinPosAux f ((hd :: tl) ++ [op]) i acc =
        lastUnpinPosAux f (tl ++ [op]) (i + 1) (if hd = Op.unpin f then i + 1 else acc) := rfl
    rw [hstep, ih]
    by_cases h : op = Op.unpin f
    · rw [if_pos h, if_pos h]
      simp only [List.length_cons]
      omega
    · rw [if_neg h, if_neg h]
      rfl

theorem lastUnpinPos_append (ops : List Op) (op : Op) (f : Nat) :
    lastUnpinPos (ops ++ [op]) f =
      if op = Op.unpin f then ops.length + 1 else lastUnpinPos ops f := by
  simp [lastUnpinPos, lastUnpinPosAux_append]

theorem lastTouchPosAux_append (f : Nat) (op : Op) (l : List Op) :
    ∀ i acc, lastTouchPosAux f (l ++ [op]) i acc =
      if op = Op.pin f ∨ op = Op.unpin f then i + l.length + 1
      else lastTouchPosAux f l i acc := by
  induction l with
  | nil =>
    intro i acc
    by_cases h : op = Op.pin f ∨ op = Op.unpin f <;> simp [lastTouchPosAux, h]
  | cons hd tl ih =>
    intro i acc
    have hstep : lastTouchPosAux f ((hd :: tl) ++ [op]) i acc =
        lastTouchPosAux f (tl ++ [op]) (i + 1)
          (if hd = Op.pin f ∨ hd = Op.unpin f then i + 1 else acc) := rfl
    rw [hstep, ih]
    by_cases h : op = Op.pin f ∨ op = Op.unpin f
    · rw [if_pos h, if_pos h]
      simp only [List.length_cons]
      omega
    · rw [if_neg h, if_neg h]
      rfl

theorem lastTouchPos_append (ops : List Op) (op : Op) (f : Nat) :
    lastTouchPos (ops ++ [op]) f =
      if op = Op.pin f ∨ op = Op.unpin f then ops.length + 1
      else lastTouchPos ops f := by
  simp [lastTouchPos, lastTouchPosAux_append]

theorem lastUnpinPosAux_le (f : Nat) :
    ∀ (l : List Op) (i acc : Nat), acc ≤ i → lastUnpinPosAux f l i acc ≤ i + l.length := by
  intro l
  induction l with
  | nil => intro i acc h; simpa [lastUnpinPosAux] using h
  | cons hd tl ih =>
    intro i acc h
    simp only [lastUnpinPosAux, List.length_cons]
    have h1 : (if hd = Op.unpin f then i + 1 else acc) ≤ i + 1 := by
      split <;> omega
    have := ih (i + 1) _ h1
    omega

theorem lastUnpinPos_le (ops : List Op) (f : Nat) : lastUnpinPos ops f ≤ ops.length := by
  simpa using lastUnpinPosAux_le f ops 0 0 (le_refl 0)

theorem tracked_append_unpin (ops : List Op) (g f : Nat) :
    tracked (ops ++ [Op.unpin g]) f ↔ (f = g ∨ tracked ops f) := by
  unfold tracked
  rw [lastUnpinPos_append, lastTouchPos_append]
  by_cases h : f = g
  · subst h
    simp
  · have h1 : ¬ (Op.unpin g = Op.unpin f) := fun e => h (Op.unpin.inj e).symm
    have h2 : ¬ (Op.unpin g = Op.pin f ∨ Op.unpin g = Op.unpin f) := by
      rintro (e | e)
      · exact Op.noConfusion e
      · exact h1 e
    rw [if_neg h1, if_neg h2]
    simp [h]

theorem tracked_append_pin (ops : List Op) (g f : Nat) :
    tracked (ops ++ [Op.pin g]) f ↔ (f ≠ g ∧ tracked ops f) := by
  unfold tracked
  rw [lastUnpinPos_append, lastTouchPos_append]
  have h1 : ¬ (Op.pin g = Op.unpin f) := fun e => Op.noConfusion e
  rw [if_neg h1]
  by_cases h : f = g
  · subst h
    rw [if_pos (Or.inl rfl)]
    have := lastUnpinPos_le ops f
    constructor
    · rintro ⟨_, he⟩; omega
    · rintro ⟨hne, _⟩; exact absurd rfl hne
  · have h2 : ¬ (Op.pin g = Op.pin f ∨ Op.pin g = Op.unpin f) := by
      rintro (e | e)
      · exact h (Op.pin.inj e).symm
      · exact Op.noConfusion e
    rw [if_neg h2]
    simp [h]

theorem inv_holds (ops : List Op) : INV ops := by
  induction ops using List.reverseRecOn with
  | nil =>
    refine ⟨List.nodup_nil, ?_, List.Pairwise.nil⟩
    intro f
    simp [run, tracked, lastUnpinPos, lastUnpinPosAux]
  | append_singleton ops op ih =>
    obtain ⟨hnd, hmem, hpw⟩ := ih
    cases op with
    | unpin g =>
      have hrun : run (ops ++ [Op.unpin g]) = g :: (run ops).erase g := run_append ops _
      have hger : g ∉ (run ops).erase g := fun hg => ((hnd.mem_erase_iff).mp hg).1 rfl
      refine ⟨?_, ?_, ?_⟩
      · rw [hrun]
        exact List.nodup_cons.mpr ⟨hger, hnd.erase g⟩
      · intro f
        rw [hrun, tracked_append_unpin]
        constructor
        · intro hin
          rcases List.mem_cons.mp hin with rfl | hf
          · exact Or.inl rfl
          · exact Or.inr ((hmem f).mp ((hnd.mem_erase_iff).mp hf).2)
        · rintro (rfl | hf)
          · exact List.mem_cons_self _ _
          · by_cases hfg : f = g
            · exact hfg ▸ List.mem_cons_self _ _
            · exact List.mem_cons_of_mem _ ((hnd.mem_erase_iff).mpr ⟨hfg, (hmem f).mpr hf⟩)
      · rw [hrun]
        refine List.pairwise_cons.mpr ⟨?_, ?_⟩
        · intro b hb
          have hbg : b ≠ g := ((hnd.mem_erase_iff).mp hb).1
          rw [lastUnpinPos_append, lastUnpinPos_append]
          rw [if_pos rfl, if_neg (fun e => hbg (Op.unpin.inj e).symm)]
          have := lastUnpinPos_le ops b
          omega
        · have hsub : ((run ops).erase g).Pairwise
              (fun a b => lastUnpinPos ops b < lastUnpinPos ops a) :=
            hpw.sublist (List.erase_sublist g (run ops))
          refine hsub.imp_of_mem ?_
          intro a b ha hb hab
          have hag : a ≠ g := ((hnd.mem_erase_iff).mp ha).1
          have hbg : b ≠ g := ((hnd.mem_erase_iff).mp hb).1
          rw [lastUnpinPos_append, lastUnpinPos_append]
          rw [if_neg (fun e => hag (Op.unpin.inj e).symm),
            if_neg (fun e => hbg (Op.unpin.inj e).symm)]
          exact hab
    | pin g =>
      have hrun : run (ops ++ [Op.pin g]) = (run ops).erase g := run_append ops _
      refine ⟨?_, ?_, ?_⟩
      · rw [hrun]; exact hnd.erase g
      · intro f
        rw [hrun, tracked_append_pin, hnd.mem_erase_iff, hmem f]
      · rw [hrun]
        have hsub : ((run ops).erase g).Pairwise
            (fun a b => lastUnpinPos ops b < lastUnpinPos ops a) :=
          hpw.sublist (List.erase_sublist g (run ops))
        refine hsub.imp_of_mem ?_
        intro a b ha hb hab
        rw [lastUnpinPos_append, lastUnpinPos_append]
        rw [if_neg (fun e => Op.noConfusion e), if_neg (fun e => Op.noConfusion e)]
        exact hab

theorem drainFuel_eq_reverse :
    ∀ (fuel : Nat) (s : State), s.length ≤ fuel → drainFuel fuel s = s.reverse := by
  intro fuel
  induction fuel with
  | zero =>
    intro s hs
    rw [List.length_eq_zero.mp (Nat.le_zero.mp hs)]
    rfl
  | succ n ih =>
    intro s hs
    match s with
    | [] => rfl
    | a :: l =>
      have hne : a :: l ≠ [] := List.cons_ne_nil a l
      have hlast : (a :: l).getLast? = some ((a :: l).getLast hne) :=
        List.getLast?_eq_getLast _ hne
      have hdecomp : (a :: l).dropLast ++ [(a :: l).getLast hne] = a :: l :=
        List.dropLast_append_getLast hne
      have hlen : (a :: l).dropLast.length ≤ n := by
        have h1 : (a :: l).dropLast.length = l.length := by simp
        have h2 : l.length + 1 ≤ n + 1 := by simpa using hs
        omega
      calc drainFuel (n + 1) (a :: l)
          = (a :: l).getLast hne :: drainFuel n (a :: l).dropLast := by
            simp only [drainFuel, victim, hlast]
        _ = (a :: l).getLast hne :: (a :: l).dropLast.reverse := by rw [ih _ hlen]
        _ = ((a :: l).dropLast ++ [(a :: l).getLast hne]).reverse := by
            rw [List.reverse_append]; rfl
        _ = (a :: l).reverse := by rw [hdecomp]

theorem drain_eq_reverse (s : State) : drain s = s.reverse :=
  drainFuel_eq_reverse s.length s (le_refl _)

end LRU

namespace Index

theorem mem_insertSorted (k pid : Nat) (x : IndexEntry) :
    ∀ l : List IndexEntry, x ∈ insertSorted k pid l ↔ x = ⟨k, pid, 0⟩ ∨ x ∈ l := by
  intro l
  induction l with
  | nil => simp [insertSorted]
  | cons e rest ih =>
    simp only [insertSorted]
    split
    · rw [List.mem_cons, ih, List.mem_cons]
      try tauto
    · simp only [List.mem_cons]
      try tauto

theorem length_insertSorted (k pid : Nat) :
    ∀ l : List IndexEntry, (insertSorted k pid l).length = l.length + 1 := by
  intro l
  induction l with
  | nil => rfl
  | cons e rest ih =>
    simp only [insertSorted]
    split <;> simp [ih]

theorem pairwise_insertSorted (k pid : Nat) :
    ∀ l : List IndexEntry, l.Pairwise (fun a b => a.key < b.key) →
      (∀ e ∈ l, e.key ≠ k) →
      (insertSorted k pid l).Pairwise (fun a b => a.key < b.key) := by
  intro l
  induction l with
  | nil =>
    intro _ _
    simp [insertSorted]
  | cons e rest ih =>
    intro hp hk
    obtain ⟨he, hrest⟩ := List.pairwise_cons.mp hp
    simp only [insertSorted]
    by_cases h : e.key < k
    · rw [if_pos h]
      refine List.pairwise_cons.mpr ⟨?_, ih hrest fun x hx => hk x (List.mem_cons_of_mem e hx)⟩
      intro x hx
      rcases (mem_insertSorted k pid x rest).mp hx with rfl | hx
      · exact h
      · exact he x hx
    · rw [if_neg h]
      have hek : e.key ≠ k := hk e (List.mem_cons_self e rest)
      have hke : k < e.key := by omega
      refine List.pairwise_cons.mpr ⟨?_, hp⟩
      intro x hx
      rcases List.mem_cons.mp hx with rfl | hx
      · exact hke
      · exact lt_trans hke (he x hx)

theorem removeSorted_sublist (k : Nat) :
    ∀ l l' : List IndexEntry, removeSorted k l = some l' → l'.Sublist l := by
  intro l
  induction l with
  | nil => intro l' h; simp [removeSorted] at h
  | cons e rest ih =>
    intro l' h
    simp only [removeSorted] at h
    split at h
    · cases hr : removeSorted k rest with
      | none => rw [hr] at h; simp at h
      | some r =>
        rw [hr] at h
        simp only [Option.map_some', Option.some.injEq] at h
        rw [← h]
        exact (ih r hr).cons₂ e
    · split at h
      · cases h
        exact List.sublist_cons_self e rest
      · cases h

theorem removeSorted_length (k : Nat) :
    ∀ l l' : List IndexEntry, removeSorted k l = some l' → l.length = l'.length + 1 := by
  intro l
  induction l with
  | nil => intro l' h; simp [removeSorted] at h
  | cons e rest ih =>
    intro l' h
    simp only [removeSorted] at h
    split at h
    · cases hr : removeSorted k rest with
      | none => rw [hr] at h; simp at h
      | some r =>
        rw [hr] at h
        simp only [Option.map_some', Option.some.injEq] at h
        rw [← h]
        simp [ih r hr]
    · split at h
      · cases h
        rfl
      · cases h

theorem wf_runIOps :
    ∀ (ops : List IOp) (p : IndexPageM), WFIdx p → noDupInserts p ops = true →
      WFIdx (runIOps p ops) := by
  intro ops
  induction ops with
  | nil => intro p h _; exact h
  | cons op rest ih =>
    intro p hwf hnd
    obtain ⟨hpw, hfs⟩ := hwf
    have hstep : runIOps p (op :: rest) = runIOps (applyIOp p op) rest := rfl
    rw [hstep]
    cases op with
    | ins k pid =>
      simp only [noDupInserts, Bool.and_eq_true, decide_eq_true_eq] at hnd
      obtain ⟨hk, hrest⟩ := hnd
      refine ih _ ?_ hrest
      show WFIdx (insertKey p k pid).2
      unfold insertKey
      by_cases hsp : p.freeSpace < ENTRY_SIZE
      · rw [if_pos hsp]
        exact ⟨hpw, hfs⟩
      · rw [if_neg hsp]
        constructor
        · have hpw' : p.entries.Pairwise (fun a b => a.key < b.key) := by
            rw [keys] at hpw
            exact List.pairwise_map.mp hpw
          have hk' : ∀ e ∈ p.entries, e.key ≠ k := by
            intro e he hek
            exact hk (hek ▸ List.mem_map_of_mem (·.key) he)
          have := pairwise_insertSorted k pid p.entries hpw' hk'
          simpa [keys, List.pairwise_map] using this
        · simp only [length_insertSorted]
          unfold ENTRY_SIZE at *
          omega
    | rem k =>
      simp only [noDupInserts] at hnd
      refine ih _ ?_ hnd
      show WFIdx (removeKey p k).2
      unfold removeKey
      cases hr : removeSorted k p.entries with
      | none => exact ⟨hpw, hfs⟩
      | some l =>
        constructor
        · have hpw' : p.entries.Pairwise (fun a b => a.key < b.key) := by
            rw [keys] at hpw
            exact List.pairwise_map.mp hpw
          have := hpw'.sublist (removeSorted_sublist k p.entries l hr)
          simpa [keys, List.pairwise_map] using this
        · have hlen := removeSorted_length k p.entries l hr
          have hle : p.freeSpace + ENTRY_SIZE ≤ MAX_FREE_SPACE + ENTRY_SIZE := by
            unfold ENTRY_SIZE MAX_FREE_SPACE INDEX_HEADER_SIZE at *
            omega
          simp only [t16]
          unfold ENTRY_SIZE MAX_FREE_SPACE INDEX_HEADER_SIZE at *
          rw [Nat.mod_eq_of_lt (by omega)]
          omega

end Index

namespace Disk

theorem readBytes_writeBytes (f : File) (off : Nat) (bs : List Nat) :
    readBytes (writeBytes f off bs) off bs.length = bs := by
  apply List.ext_getElem
  · simp [readBytes]
  · intro i h1 h2
    simp only [readBytes, List.getElem_map, List.getElem_range]
    unfold writeBytes
    rw [if_pos ⟨Nat.le_add_right off i, by omega⟩]
    rw [Nat.add_sub_cancel_left]
    exact List.getD_eq_getElem bs 0 h2

theorem writeHeader_byte (f : File) (h : DatabaseHeader) (i : Nat) (hi : i < 28) :
    writeHeader f h i = (serHeader h).getD i 0 := by
  have hlen : (serHeader h).length = 28 := by simp [serHeader]
  unfold writeHeader writeBytes
  rw [if_pos ⟨Nat.zero_le i, by omega⟩]
  simp

theorem read32_writeHeader_0 (f : File) (h : DatabaseHeader) :
    read32 (writeHeader f h) 0 = h.magic % 4294967296 := by
  unfold read32
  rw [writeHeader_byte f h 0 (by norm_num), writeHeader_byte f h 1 (by norm_num),
    writeHeader_byte f h 2 (by norm_num), writeHeader_byte f h 3 (by norm_num)]
  show h.magic % 256 + 256 * (h.magic / 256 % 256) + 65536 * (h.magic / 65536 % 256) +
      16777216 * (h.magic / 16777216 % 256) = h.magic % 4294967296
  omega

theorem read32_writeHeader_4 (f : File) (h : DatabaseHeader) :
    read32 (writeHeader f h) 4 = h.version % 4294967296 := by
  unfold read32
  rw [writeHeader_byte f h 4 (by norm_num), writeHeader_byte f h 5 (by norm_num),
    writeHeader_byte f h 6 (by norm_num), writeHeader_byte f h 7 (by norm_num)]
  show h.version % 256 + 256 * (h.version / 256 % 256) + 65536 * (h.version / 65536 % 256) +
      16777216 * (h.version / 16777216 % 256) = h.version % 4294967296
  omega

theorem read32_writeHeader_8 (f : File) (h : DatabaseHeader) :
    read32 (writeHeader f h) 8 = h.pageSize % 4294967296 := by
  unfold read32
  rw [writeHeader_byte f h 8 (by norm_num), writeHeader_byte f h 9 (by norm_num),
    writeHeader_byte f h 10 (by norm_num), writeHeader_byte f h 11 (by norm_num)]
  show h.pageSize % 256 + 256 * (h.pageSize / 256 % 256) +
      65536 * (h.pageSize / 65536 % 256) + 16777216 * (h.pageSize / 16777216 % 256) =
      h.pageSize % 4294967296
  omega

theorem read32_writeHeader_12 (f : File) (h : DatabaseHeader) :
    read32 (writeHeader f h) 12 = h.pageCount % 4294967296 := by
  unfold read32
  rw [writeHeader_byte f h 12 (by norm_num), writeHeader_byte f h 13 (by norm_num),
    writeHeader_byte f h 14 (by norm_num), writeHeader_byte f h 15 (by norm_num)]
  show h.pageCount % 256 + 256 * (h.pageCount / 256 % 256) +
      65536 * (h.pageCount / 65536 % 256) + 16777216 * (h.pageCount / 16777216 % 256) =
      h.pageCount % 4294967296
  omega

end Disk

namespace Data

theorem actualData_fold (m : Mem) :
    ∀ (n a : Nat),
      (List.range n).foldl
        (fun acc i => if slotDeleted m i then acc else t16 (acc + slotLength m i))
        (t16 a) = t16 (a + liveRecordBytesUpTo m n) := by
  intro n
  induction n with
  | zero =>
    intro a
    simp [liveRecordBytesUpTo, t16]
  | succ k ih =>
    intro a
    have hL : liveRecordBytesUpTo m (k + 1) =
        (if slotDeleted m k then liveRecordBytesUpTo m k
         else liveRecordBytesUpTo m k + slotLength m k) := by
      unfold liveRecordBytesUpTo
      rw [List.range_succ, List.foldl_append]
      by_cases hd : slotDeleted m k <;> simp [hd]
    rw [List.range_succ, List.foldl_append, ih, hL]
    by_cases hd : slotDeleted m k
    · simp [hd]
    · simp only [hd, Bool.false_eq_true, if_false, List.foldl_cons, List.foldl_nil, t16]
      rw [Nat.mod_add_mod, Nat.add_assoc]

end Data

namespace Pool

theorem getD_set_self (l : List PFrame) (i : Nat) (fr : PFrame) (h : i < l.length) :
    (l.set i fr).getD i emptyFrame = fr := by
  simp [List.getD_eq_getElem?_getD, List.getElem?_set_self, h]

theorem getD_set_ne (l : List PFrame) {i j : Nat} (fr : PFrame) (h : i ≠ j) :
    (l.set i fr).getD j emptyFrame = l.getD j emptyFrame := by
  simp [List.getD_eq_getElem?_getD, List.getElem?_set_ne h]

theorem lookupPT_some_mem {t : List (Nat × Nat)} {pid idx : Nat}
    (h : lookupPT t pid = some idx) : (pid, idx) ∈ t := by
  induction t with
  | nil => cases h
  | cons e rest ih =>
    unfold lookupPT at h
    by_cases he : e.1 = pid
    · rw [if_pos he] at h
      cases h
      obtain ⟨e1, e2⟩ := e
      simp only at he
      subst he
      exact List.mem_cons_self _ _
    · rw [if_neg he] at h
      exact List.mem_cons_of_mem e (ih h)

theorem lookupPT_none {t : List (Nat × Nat)} {pid : Nat}
    (h : lookupPT t pid = none) : ∀ e ∈ t, e.1 ≠ pid := by
  induction t with
  | nil => intro e he; cases he
  | cons e rest ih =>
    unfold lookupPT at h
    by_cases he : e.1 = pid
    · rw [if_pos he] at h; cases h
    · rw [if_neg he] at h
      intro x hx
      rcases List.mem_cons.mp hx with rfl | hx
      · exact he
      · exact ih h x hx

theorem mem_erasePT {t : List (Nat × Nat)} {pid : Nat} {e : Nat × Nat} :
    e ∈ erasePT t pid ↔ e ∈ t ∧ e.1 ≠ pid := by
  unfold erasePT
  simp [List.mem_filter]

theorem mem_insertPT {t : List (Nat × Nat)} {pid idx : Nat} {e : Nat × Nat} :
    e ∈ insertPT t pid idx ↔ (e ∈ t ∧ e.1 ≠ pid) ∨ e = (pid, idx) := by
  unfold insertPT
  rw [List.mem_append, mem_erasePT]
  simp

theorem lookupPT_erasePT_self (t : List (Nat × Nat)) (pid : Nat) :
    lookupPT (erasePT t pid) pid = none := by
  induction t with
  | nil => rfl
  | cons e rest ih =>
    unfold erasePT at ih ⊢
    by_cases he : e.1 = pid
    · rw [List.filter_cons_of_neg (by simp [he])]
      exact ih
    · rw [List.filter_cons_of_pos (by simp [he])]
      unfold lookupPT
      rw [if_neg he]
      exact ih

theorem lookupPT_erasePT_ne (t : List (Nat × Nat)) {pid q : Nat} (h : q ≠ pid) :
    lookupPT (erasePT t pid) q = lookupPT t q := by
  induction t with
  | nil => rfl
  | cons e rest ih =>
    unfold erasePT at ih ⊢
    by_cases he : e.1 = pid
    · rw [List.filter_cons_of_neg (by simp [he])]
      have hne : ¬ (e.1 = q) := fun hq => h (hq.symm.trans he)
      have hr : lookupPT (e :: rest) q = lookupPT rest q := by
        show (if e.1 = q then some e.2 else lookupPT rest q) = _
        rw [if_neg hne]
      rw [hr, ih]
    · rw [List.filter_cons_of_pos (by simp [he])]
      unfold lookupPT
      by_cases hq : e.1 = q
      · rw [if_pos hq, if_pos hq]
      · rw [if_neg hq, if_neg hq]
        exact ih

theorem lookupPT_append_none {l1 l2 : List (Nat × Nat)} {pid : Nat}
    (h : lookupPT l1 pid = none) : lookupPT (l1 ++ l2) pid = lookupPT l2 pid := by
  induction l1 with
  | nil => rfl
  | cons e rest ih =>
    by_cases he : e.1 = pid
    · exfalso
      unfold lookupPT at h
      rw [if_pos he] at h
      cases h
    · have h2 : lookupPT rest pid = none := by
        unfold lookupPT at h
        rwa [if_neg he] at h
      have hstep : lookupPT ((e :: rest) ++ l2) pid = lookupPT (rest ++ l2) pid := by
        show (if e.1 = pid then some e.2 else lookupPT (rest ++ l2) pid) = _
        rw [if_neg he]
      rw [hstep]
      exact ih h2

theorem lookupPT_insertPT_self (t : List (Nat × Nat)) (pid idx : Nat) :
    lookupPT (insertPT t pid idx) pid = some idx := by
  unfold insertPT
  rw [lookupPT_append_none (lookupPT_erasePT_self t pid)]
  show (if pid = pid then some idx else lookupPT [] pid) = some idx
  rw [if_pos rfl]

theorem lookupPT_insertPT_ne (t : List (Nat × Nat)) {pid q : Nat} (idx : Nat)
    (h : q ≠ pid) : lookupPT (insertPT t pid idx) q = lookupPT t q := by
  unfold insertPT
  have h1 : lookupPT [(pid, idx)] q = none := by
    show (if pid = q then some idx else lookupPT [] q) = none
    rw [if_neg (fun hq : pid = q => h hq.symm)]
    rfl
  induction t with
  | nil =>
    show lookupPT ([] ++ [(pid, idx)]) q = none
    simpa using h1
  | cons e rest ih =>
    unfold erasePT at ih ⊢
    by_cases he : e.1 = pid
    · rw [List.filter_cons_of_neg (by simp [he])]
      have hne : ¬ (e.1 = q) := fun hq => h (hq.symm.trans he)
      have hr : lookupPT (e :: rest) q = lookupPT rest q := by
        show (if e.1 = q then some e.2 else lookupPT rest q) = _
        rw [if_neg hne]
      rw [hr]
      exact ih
    · rw [List.filter_cons_of_pos (by simp [he])]
      show lookupPT (e :: (List.filter _ rest ++ [(pid, idx)])) q = _
      unfold lookupPT
      by_cases hq : e.1 = q
      · rw [if_pos hq, if_pos hq]
      · rw [if_neg hq, if_neg hq]
        exact ih

theorem keys_nodup_erasePT {t : List (Nat × Nat)} (pid : Nat)
    (h : (t.map (·.1)).Nodup) : ((erasePT t pid).map (·.1)).Nodup := by
  unfold erasePT
  exact h.sublist ((List.filter_sublist t).map (·.1))

theorem victim_eq_some {r : LRU.State} {v : Nat} {r' : LRU.State}
    (h : LRU.victim r = (some v, r')) :
    v ∈ r ∧ r' = r.dropLast ∧ (r.Nodup → v ∉ r') := by
  match r with
  | [] => simp [LRU.victim] at h
  | a :: l =>
    have hne : a :: l ≠ [] := List.cons_ne_nil a l
    unfold LRU.victim at h
    have h1 : (a :: l).getLast? = some v := congrArg Prod.fst h
    have h2 : (a :: l).dropLast = r' := congrArg Prod.snd h
    rw [List.getLast?_eq_getLast _ hne] at h1
    have hv : v = (a :: l).getLast hne := (Option.some.inj h1).symm
    refine ⟨hv ▸ List.getLast_mem hne, h2.symm, ?_⟩
    intro hnd hmem
    rw [← h2] at hmem
    have hdec : (a :: l).dropLast ++ [(a :: l).getLast hne] = a :: l :=
      List.dropLast_append_getLast hne
    rw [← hdec] at hnd
    have := (List.nodup_append.mp hnd).2.2
    exact this hmem (hv ▸ List.mem_singleton_self _)

/-- Transfer of the invariant along a state with the same page table, replacer,
frame count and framewise page/pageId/pinCount (only dirty bits may differ). -/
theorem WFPool_congr (s s' : PoolState)
    (ht : s'.pageTable = s.pageTable) (hr : s'.replacer = s.replacer)
    (hl : s'.frames.length = s.frames.length)
    (hf : ∀ i, (getFrame s' i).page = (getFrame s i).page ∧
      (getFrame s' i).pageId = (getFrame s i).pageId ∧
      (getFrame s' i).pinCount = (getFrame s i).pinCount)
    (h : WFPool s) : WFPool s' := by
  obtain ⟨hA, hB, hC, hD, hF⟩ := h
  refine ⟨?_, ?_, ?_, ?_, ?_⟩
  · intro i hi
    rw [hr] at hi
    obtain ⟨h1, h2, h3⟩ := hA i hi
    obtain ⟨p1, p2, p3⟩ := hf i
    exact ⟨hl ▸ h1, p1 ▸ h2, p3 ▸ h3⟩
  · rw [hr]; exact hB
  · intro e he
    rw [ht] at he
    obtain ⟨h1, h2, h3⟩ := hC e he
    obtain ⟨p1, p2, p3⟩ := hf e.2
    exact ⟨hl ▸ h1, p1 ▸ h2, p2 ▸ h3⟩
  · rw [ht]; exact hD
  · intro i hi hnone
    obtain ⟨p1, p2, p3⟩ := hf i
    rw [p3]
    exact hF i (hl ▸ hi) (p1 ▸ hnone)

theorem getD_set_fields (l : List PFrame) (j : Nat) (fr2 : PFrame) (i : Nat) :
    (l.set j fr2).getD i emptyFrame =
      if i = j ∧ j < l.length then fr2 else l.getD i emptyFrame := by
  by_cases h1 : i = j
  · subst h1
    by_cases h2 : i < l.length
    · rw [if_pos ⟨rfl, h2⟩, getD_set_self l i fr2 h2]
    · rw [if_neg (fun hc => h2 hc.2), List.set_eq_of_length_le (Nat.le_of_not_lt h2)]
  · rw [if_neg (fun hc => h1 hc.1), getD_set_ne l fr2 (fun hh => h1 hh.symm)]

theorem fields_after_set (s : PoolState) (j : Nat) (fr2 : PFrame)
    (hpage : fr2.page = (getFrame s j).page)
    (hpid : fr2.pageId = (getFrame s j).pageId)
    (hpin : fr2.pinCount = (getFrame s j).pinCount) (i : Nat) :
    ((s.frames.set j fr2).getD i emptyFrame).page = (getFrame s i).page ∧
    ((s.frames.set j fr2).getD i emptyFrame).pageId = (getFrame s i).pageId ∧
    ((s.frames.set j fr2).getD i emptyFrame).pinCount = (getFrame s i).pinCount := by
  rw [getD_set_fields]
  split
  · next h =>
    obtain ⟨rfl, _⟩ := h
    exact ⟨hpage, hpid, hpin⟩
  · exact ⟨rfl, rfl, rfl⟩

theorem wf_flushAll_aux (oks : Nat → Bool) :
    ∀ (entries : List (Nat × Nat)) (s : PoolState), WFPool s →
      WFPool (entries.foldl (fun st e =>
        let fr := getFrame st e.2
        if fr.dirty then
          if oks e.1 then
            { st with frames := st.frames.set e.2 { fr with dirty := false } }
          else st
        else st) s) := by
  intro entries
  induction entries with
  | nil => intro s h; exact h
  | cons e rest ih =>
    intro s h
    rw [List.foldl_cons]
    apply ih
    simp only
    split
    · split
      · refine WFPool_congr s _ rfl rfl (List.length_set _ _ _) ?_ h
        intro i
        exact fields_after_set s e.2 { getFrame s e.2 with dirty := false } rfl rfl rfl i
      · exact h
    · exact h

theorem wf_flushAll (s : PoolState) (oks : Nat → Bool) (h : WFPool s) :
    WFPool (flushAllOp s oks) :=
  wf_flushAll_aux oks s.pageTable s h

theorem wf_unpin (s : PoolState) (pid : Nat) (d : Bool) (h : WFPool s) :
    WFPool (unpinPage s pid d).2 := by
  obtain ⟨hA, hB, hC, hD, hF⟩ := h
  unfold unpinPage
  cases hlk : lookupPT s.pageTable pid with
  | none => exact ⟨hA, hB, hC, hD, hF⟩
  | some idx =>
    simp only
    obtain ⟨hidx, hres, hpid⟩ := hC _ (lookupPT_some_mem hlk)
    simp only at hidx hres hpid
    set frU : PFrame := { getFrame s idx with
      pinCount := (getFrame s idx).pinCount - 1,
      dirty := (getFrame s idx).dirty || d } with hfrU
    have hself : (s.frames.set idx frU).getD idx emptyFrame = frU :=
      getD_set_self s.frames idx frU hidx
    have hne : ∀ j : Nat, j ≠ idx →
        (s.frames.set idx frU).getD j emptyFrame = getFrame s j := by
      intro j hj
      exact getD_set_ne s.frames frU (fun hh => hj hh.symm)
    have hfields : ∀ i,
        ((s.frames.set idx frU).getD i emptyFrame).page = (getFrame s i).page ∧
        ((s.frames.set idx frU).getD i emptyFrame).pageId = (getFrame s i).pageId := by
      intro i
      rw [getD_set_fields]
      split
      · next hc =>
        obtain ⟨rfl, _⟩ := hc
        exact ⟨rfl, rfl⟩
      · exact ⟨rfl, rfl⟩
    split
    · next h0 =>
      refine ⟨?_, ?_, ?_, ?_, ?_⟩
      · intro j hj
        rcases List.mem_cons.mp hj with rfl | hj2
        · refine ⟨by rw [List.length_set]; exact hidx, ?_, ?_⟩
          · show ((s.frames.set j frU).getD j emptyFrame).page.isSome = true
            rw [hself]
            exact hres
          · show ((s.frames.set j frU).getD j emptyFrame).pinCount = 0
            rw [hself]
            exact h0
        · have hjm : j ∈ s.replacer := (s.replacer.erase_sublist idx).subset hj2
          have hjne : j ≠ idx := (hB.mem_erase_iff.mp hj2).1
          obtain ⟨q1, q2, q3⟩ := hA j hjm
          refine ⟨by rw [List.length_set]; exact q1, ?_, ?_⟩
          · show ((s.frames.set idx frU).getD j emptyFrame).page.isSome = true
            rw [hne j hjne]
            exact q2
          · show ((s.frames.set idx frU).getD j emptyFrame).pinCount = 0
            rw [hne j hjne]
            exact q3
      · exact List.nodup_cons.mpr
          ⟨fun hmem => (hB.mem_erase_iff.mp hmem).1 rfl, hB.erase idx⟩
      · intro e he
        obtain ⟨q1, q2, q3⟩ := hC e he
        obtain ⟨p1, p2⟩ := hfields e.2
        refine ⟨by rw [List.length_set]; exact q1, ?_, ?_⟩
        · show ((s.frames.set idx frU).getD e.2 emptyFrame).page.isSome = true
          rw [p1]
          exact q2
        · show ((s.frames.set idx frU).getD e.2 emptyFrame).pageId = e.1
          rw [p2]
          exact q3
      · exact hD
      · intro i hi hnone
        rw [List.length_set] at hi
        by_cases hij : i = idx
        · subst hij
          exfalso
          have h2 : (getFrame s i).page = none := by
            have := (hfields i).1
            rw [← this]
            exact hnone
          rw [h2] at hres
          cases hres
        · show ((s.frames.set idx frU).getD i emptyFrame).pinCount = 0
          have h2 : (getFrame s i).page = none := by
            rw [← hne i hij]
            exact hnone
          rw [hne i hij]
          exact hF i hi h2
    · next h0 =>
      refine ⟨?_, ?_, ?_, ?_, ?_⟩
      · intro j hj
        obtain ⟨q1, q2, q3⟩ := hA j hj
        by_cases hij : j = idx
        · exfalso
          apply h0
          subst hij
          show (getFrame s j).pinCount - 1 = 0
          rw [q3]
        · refine ⟨by rw [List.length_set]; exact q1, ?_, ?_⟩
          · show ((s.frames.set idx frU).getD j emptyFrame).page.isSome = true
            rw [hne j hij]
            exact q2
          · show ((s.frames.set idx frU).getD j emptyFrame).pinCount = 0
            rw [hne j hij]
            exact q3
      · exact hB
      · intro e he
        obtain ⟨q1, q2, q3⟩ := hC e he
        obtain ⟨p1, p2⟩ := hfields e.2
        refine ⟨by rw [List.length_set]; exact q1, ?_, ?_⟩
        · show ((s.frames.set idx frU).getD e.2 emptyFrame).page.isSome = true
          rw [p1]
          exact q2
        · show ((s.frames.set idx frU).getD e.2 emptyFrame).pageId = e.1
          rw [p2]
          exact q3
      · exact hD
      · intro i hi hnone
        rw [List.length_set] at hi
        by_cases hij : i = idx
        · subst hij
          exfalso
          have h2 : (getFrame s i).page = none := by
            have := (hfields i).1
            rw [← this]
            exact hnone
          rw [h2] at hres
          cases hres
        · show ((s.frames.set idx frU).getD i emptyFrame).pinCount = 0
          have h2 : (getFrame s i).page = none := by
            rw [← hne i hij]
            exact hnone
          rw [hne i hij]
          exact hF i hi h2

theorem keys_nodup_insertPT {t : List (Nat × Nat)} (pid idx : Nat)
    (h : (t.map (·.1)).Nodup) : ((insertPT t pid idx).map (·.1)).Nodup := by
  unfold insertPT
  rw [List.map_append]
  apply List.Nodup.append (keys_nodup_erasePT pid h) (List.nodup_singleton pid)
  intro a ha hb
  simp only [List.map_cons, List.map_nil, List.mem_singleton] at hb
  subst hb
  obtain ⟨e, he, hkey⟩ := List.mem_map.mp ha
  exact (mem_erasePT.mp he).2 hkey

theorem lookupPT_erasePT_none {t : List (Nat × Nat)} {pid : Nat} (q : Nat)
    (h : lookupPT t pid = none) : lookupPT (erasePT t q) pid = none := by
  by_cases hq : pid = q
  · subst hq
    exact lookupPT_erasePT_self t pid
  · rw [lookupPT_erasePT_ne t hq]
    exact h

/-- After `evictFrame` on a frame that is not in the replacer, the invariant
still holds; and when eviction succeeds the frame is empty, the replacer is
untouched, the frame count is unchanged and absent page ids stay absent. -/
theorem evict_post (s : PoolState) (v : Nat) (fOk : Bool)
    (hv : v ∉ s.replacer) (h : WFPool s) :
    WFPool (evictFrame s v fOk).2 ∧
    ((evictFrame s v fOk).1 = true →
      (getFrame (evictFrame s v fOk).2 v).page = none ∧
      (evictFrame s v fOk).2.replacer = s.replacer ∧
      (evictFrame s v fOk).2.frames.length = s.frames.length ∧
      (∀ pid, lookupPT s.pageTable pid = none →
        lookupPT (evictFrame s v fOk).2.pageTable pid = none) ∧
      ∀ j, j ≠ v → getFrame (evictFrame s v fOk).2 j = getFrame s j) ∧
    ((evictFrame s v fOk).1 = false → (evictFrame s v fOk).2 = s) := by
  obtain ⟨hA, hB, hC, hD, hF⟩ := h
  unfold evictFrame
  simp only
  split
  · next hempty =>
    refine ⟨⟨hA, hB, hC, hD, hF⟩, ?_, ?_⟩
    · intro _
      exact ⟨Option.isNone_iff_eq_none.mp hempty, rfl, rfl, fun pid hp => hp,
        fun j _ => rfl⟩
    · intro hc
      cases hc
  next hnempty =>
    split
    · next hpin =>
      exact ⟨⟨hA, hB, hC, hD, hF⟩, fun hc => absurd hc (by simp), fun _ => rfl⟩
    next hpin =>
      split
      · next hdirty =>
        exact ⟨⟨hA, hB, hC, hD, hF⟩, fun hc => absurd hc (by simp), fun _ => rfl⟩
      next hdirty =>
        have hres : (getFrame s v).page.isSome = true := by
          cases hh : (getFrame s v).page with
          | none => rw [hh] at hnempty; simp at hnempty
          | some p => rfl
        have hvlen : v < s.frames.length := by
          by_contra hc
          have : getFrame s v = emptyFrame := by
            unfold getFrame
            exact List.getD_eq_default _ _ (Nat.le_of_not_lt hc)
          rw [this] at hres
          cases hres
        have hself : (s.frames.set v (frameReset none)).getD v emptyFrame =
            frameReset none := getD_set_self s.frames v (frameReset none) hvlen
        have hne : ∀ j : Nat, j ≠ v →
            (s.frames.set v (frameReset none)).getD j emptyFrame = getFrame s j := by
          intro j hj
          exact getD_set_ne s.frames (frameReset none) (fun hh => hj hh.symm)
        refine ⟨?_, ?_, fun hc => by cases hc⟩
        · refine ⟨?_, ?_, ?_, ?_, ?_⟩
          · intro j hj
            have hjne : j ≠ v := fun hh => hv (hh ▸ hj)
            obtain ⟨q1, q2, q3⟩ := hA j hj
            refine ⟨by rw [List.length_set]; exact q1, ?_, ?_⟩
            · show ((s.frames.set v (frameReset none)).getD j emptyFrame).page.isSome =
                true
              rw [hne j hjne]
              exact q2
            · show ((s.frames.set v (frameReset none)).getD j emptyFrame).pinCount = 0
              rw [hne j hjne]
              exact q3
          · exact hB
          · intro e he
            obtain ⟨hmem, hkey⟩ := mem_erasePT.mp he
            obtain ⟨q1, q2, q3⟩ := hC e hmem
            have hene : e.2 ≠ v := by
              intro hh
              apply hkey
              rw [← q3, hh]
            refine ⟨by rw [List.length_set]; exact q1, ?_, ?_⟩
            · show ((s.frames.set v (frameReset none)).getD e.2 emptyFrame).page.isSome =
                true
              rw [hne e.2 hene]
              exact q2
            · show ((s.frames.set v (frameReset none)).getD e.2 emptyFrame).pageId = e.1
              rw [hne e.2 hene]
              exact q3
          · exact keys_nodup_erasePT _ hD
          · intro i hi hnone
            by_cases hij : i = v
            · subst hij
              show ((s.frames.set i (frameReset none)).getD i emptyFrame).pinCount = 0
              rw [hself]
              rfl
            · rw [List.length_set] at hi
              show ((s.frames.set v (frameReset none)).getD i emptyFrame).pinCount = 0
              have h2 : (getFrame s i).page = none := by
                rw [← hne i hij]
                exact hnone
              rw [hne i hij]
              exact hF i hi h2
        · intro _
          refine ⟨?_, rfl, List.length_set _ _ _, ?_, ?_⟩
          · show ((s.frames.set v (frameReset none)).getD v emptyFrame).page = none
            rw [hself]
            rfl
          · intro pid hp
            exact lookupPT_erasePT_none _ hp
          · intro j hj
            show (s.frames.set v (frameReset none)).getD j emptyFrame = getFrame s j
            exact hne j hj

/-- After an install of page `pid` into the empty, unreferenced frame `v`
(the final stretch of `fetchPage`'s miss path and of `createPage`), the
invariant holds. -/
theorem wf_install_abstract (s s' : PoolState) (v pid : Nat) (pg : PPage)
    (h : WFPool s)
    (hlen : s'.frames.length = s.frames.length)
    (hvlen : v < s.frames.length)
    (hvempty : (getFrame s v).page = none)
    (hvrep : v ∉ s.replacer)
    (hgvp : (getFrame s' v).page = some pg)
    (hgvid : (getFrame s' v).pageId = pid)
    (hgvpin : (getFrame s' v).pinCount = 1)
    (hgne : ∀ j, j ≠ v → getFrame s' j = getFrame s j)
    (ht : s'.pageTable = insertPT s.pageTable pid v)
    (hr : s'.replacer = s.replacer.erase v) :
    WFPool s' := by
  obtain ⟨hA, hB, hC, hD, hF⟩ := h
  have hrep_eq : s.replacer.erase v = s.replacer := List.erase_of_not_mem hvrep
  refine ⟨?_, ?_, ?_, ?_, ?_⟩
  · intro j hj
    rw [hr, hrep_eq] at hj
    have hjne : j ≠ v := fun hh => hvrep (hh ▸ hj)
    obtain ⟨q1, q2, q3⟩ := hA j hj
    rw [hgne j hjne]
    exact ⟨hlen ▸ q1, q2, q3⟩
  · rw [hr]
    exact hB.erase v
  · intro e he
    rw [ht] at he
    rcases mem_insertPT.mp he with ⟨hmem, hkey⟩ | rfl
    · obtain ⟨q1, q2, q3⟩ := hC e hmem
      have hene : e.2 ≠ v := by
        intro hh
        rw [hh] at q2
        rw [hvempty] at q2
        cases q2
      rw [hgne e.2 hene]
      exact ⟨hlen ▸ q1, q2, q3⟩
    · refine ⟨hlen ▸ hvlen, ?_, hgvid⟩
      rw [hgvp]
      rfl
  · rw [ht]
    exact keys_nodup_insertPT pid v hD
  · intro i hi hnone
    rw [hlen] at hi
    by_cases hij : i = v
    · subst hij
      rw [hgvp] at hnone
      cases hnone
    · rw [hgne i hij] at hnone ⊢
      exact hF i hi hnone

/-- `findVictim` preserves the invariant, and a returned victim is a valid
frame index, absent from the post-state replacer, with the page table and
frames untouched; it is either an empty frame or an unpinned resident one. -/
theorem findVictim_post (s : PoolState) (h : WFPool s) :
    WFPool (findVictim s).2 ∧
    (findVictim s).2.pageTable = s.pageTable ∧
    (findVictim s).2.frames = s.frames ∧
    ∀ v, (findVictim s).1 = some v →
      v < s.frames.length ∧ v ∉ (findVictim s).2.replacer ∧
      (getFrame s v).pinCount = 0 := by
  obtain ⟨hA, hB, hC, hD, hF⟩ := h
  cases hfind : (List.range s.frames.length).find?
      (fun i => (getFrame s i).page.isNone) with
  | some i =>
    have hfv : findVictim s = (some i, s) := by
      unfold findVictim
      rw [hfind]
    rw [hfv]
    refine ⟨⟨hA, hB, hC, hD, hF⟩, rfl, rfl, ?_⟩
    intro v hv
    have hvi : i = v := Option.some.inj hv
    subst hvi
    have hmem := List.mem_of_find?_eq_some hfind
    have hpred := List.find?_some hfind
    have hlt : i < s.frames.length := List.mem_range.mp hmem
    refine ⟨hlt, ?_, hF i hlt (Option.isNone_iff_eq_none.mp hpred)⟩
    intro hrep
    obtain ⟨_, hq, _⟩ := hA i hrep
    rw [Option.isNone_iff_eq_none.mp hpred] at hq
    cases hq
  | none =>
    cases hvic : LRU.victim s.replacer with
    | mk ov r =>
      cases ov with
      | none =>
        have hfv : findVictim s = (none, s) := by
          unfold findVictim
          rw [hfind, hvic]
        rw [hfv]
        exact ⟨⟨hA, hB, hC, hD, hF⟩, rfl, rfl,
          fun v hv => Option.noConfusion hv⟩
      | some w =>
        have hfv : findVictim s = (some w, { s with replacer := r }) := by
          unfold findVictim
          rw [hfind, hvic]
        rw [hfv]
        obtain ⟨hmem, hdrop, hnotin⟩ := victim_eq_some hvic
        obtain ⟨q1, q2, q3⟩ := hA w hmem
        have hsub : r.Sublist s.replacer := by
          rw [hdrop]
          exact List.dropLast_sublist s.replacer
        refine ⟨⟨fun j hj => hA j (hsub.subset hj), hsub.nodup hB, hC, hD, hF⟩,
          rfl, rfl, ?_⟩
        intro v hv
        have hvw : w = v := Option.some.inj hv
        subst hvw
        exact ⟨q1, hnotin hB, q3⟩

/-- A fetch hit (pin the frame, drop it from the replacer) preserves the
invariant; this is also the shape of the tail of `createPage`. -/
theorem wf_hit (s : PoolState) (idx : Nat) (frU : PFrame)
    (hidx : idx < s.frames.length)
    (hpage : frU.page = (getFrame s idx).page)
    (hpid : frU.pageId = (getFrame s idx).pageId)
    (hres : (getFrame s idx).page.isSome = true)
    (h : WFPool s) :
    WFPool ⟨s.frames.set idx frU, s.pageTable, s.replacer.erase idx⟩ := by
  obtain ⟨hA, hB, hC, hD, hF⟩ := h
  have hne : ∀ j : Nat, j ≠ idx →
      (s.frames.set idx frU).getD j emptyFrame = getFrame s j := by
    intro j hj
    exact getD_set_ne s.frames frU (fun hh => hj hh.symm)
  have hfields : ∀ i,
      ((s.frames.set idx frU).getD i emptyFrame).page = (getFrame s i).page ∧
      ((s.frames.set idx frU).getD i emptyFrame).pageId = (getFrame s i).pageId := by
    intro i
    rw [getD_set_fields]
    split
    · next hc =>
      obtain ⟨rfl, _⟩ := hc
      exact ⟨hpage, hpid⟩
    · exact ⟨rfl, rfl⟩
  refine ⟨?_, hB.erase idx, ?_, hD, ?_⟩
  · intro j hj
    have hjm : j ∈ s.replacer := (s.replacer.erase_sublist idx).subset hj
    have hjne : j ≠ idx := (hB.mem_erase_iff.mp hj).1
    obtain ⟨q1, q2, q3⟩ := hA j hjm
    refine ⟨by rw [List.length_set]; exact q1, ?_, ?_⟩
    · show ((s.frames.set idx frU).getD j emptyFrame).page.isSome = true
      rw [hne j hjne]
      exact q2
    · show ((s.frames.set idx frU).getD j emptyFrame).pinCount = 0
      rw [hne j hjne]
      exact q3
  · intro e he
    obtain ⟨q1, q2, q3⟩ := hC e he
    obtain ⟨p1, p2⟩ := hfields e.2
    refine ⟨by rw [List.length_set]; exact q1, ?_, ?_⟩
    · show ((s.frames.set idx frU).getD e.2 emptyFrame).page.isSome = true
      rw [p1]
      exact q2
    · show ((s.frames.set idx frU).getD e.2 emptyFrame).pageId = e.1
      rw [p2]
      exact q3
  · intro i hi hnone
    rw [List.length_set] at hi
    by_cases hij : i = idx
    · subst hij
      exfalso
      have h2 : (getFrame s i).page = none := by
        rw [← (hfields i).1]
        exact hnone
      rw [h2] at hres
      cases hres
    · show ((s.frames.set idx frU).getD i emptyFrame).pinCount = 0
      have h2 : (getFrame s i).page = none := by
        rw [← hne i hij]
        exact hnone
      rw [hne i hij]
      exact hF i hi h2

theorem wf_fetch (s : PoolState) (pid c : Nat) (rOk fOk : Bool) (h : WFPool s) :
    WFPool (fetchPage s pid c rOk fOk).2 := by
  unfold fetchPage
  cases hlk : lookupPT s.pageTable pid with
  | some idx =>
    simp only
    obtain ⟨hidx, hres, hpid⟩ := h.2.2.1 _ (lookupPT_some_mem hlk)
    simp only at hidx hres hpid
    exact wf_hit s idx _ hidx rfl rfl hres h
  | none =>
    obtain ⟨hwf1, ht1, hf1, hv1⟩ := findVictim_post s h
    cases hfv : findVictim s with
    | mk ov s1 =>
      rw [hfv] at hwf1 ht1 hf1 hv1
      cases ov with
      | none => exact hwf1
      | some v =>
        simp only
        obtain ⟨hvlen, hvrep, hvpin⟩ := hv1 v rfl
        split
        · exact hwf1
        next hread =>
          obtain ⟨hwf2, hpost, hpfail⟩ := evict_post s1 v fOk hvrep hwf1
          cases hev : evictFrame s1 v fOk with
          | mk ok s2 =>
            rw [hev] at hwf2 hpost hpfail
            cases ok with
            | false => exact hwf2
            | true =>
              obtain ⟨hvempty, hrep2, hlen2, hlknone, hfrne⟩ := hpost rfl
              simp only
              have hvlen2 : v < s2.frames.length := by
                rw [hlen2, hf1]
                exact hvlen
              have hvrep2 : v ∉ s2.replacer := by
                rw [hrep2]
                exact hvrep
              set fr0 : PFrame := frameReset (some ⟨pid, c⟩) with hfr0
              have e0 : (s2.frames.set v fr0).getD v emptyFrame = fr0 :=
                getD_set_self s2.frames v fr0 hvlen2
              apply wf_install_abstract s2 _ v pid ⟨pid, c⟩ hwf2
              · show ((s2.frames.set v fr0).set v _).length = s2.frames.length
                rw [List.length_set, List.length_set]
              · exact hvlen2
              · exact hvempty
              · exact hvrep2
              · show (((s2.frames.set v fr0).set v _).getD v emptyFrame).page =
                  some ⟨pid, c⟩
                rw [getD_set_self _ v _ (by rw [List.length_set]; exact hvlen2)]
                show (getFrame ⟨s2.frames.set v fr0, s2.pageTable, s2.replacer⟩
                  v).page = some ⟨pid, c⟩
                show ((s2.frames.set v fr0).getD v emptyFrame).page = some ⟨pid, c⟩
                rw [e0]
                rfl
              · show (((s2.frames.set v fr0).set v _).getD v emptyFrame).pageId = pid
                rw [getD_set_self _ v _ (by rw [List.length_set]; exact hvlen2)]
                show ((s2.frames.set v fr0).getD v emptyFrame).pageId = pid
                rw [e0]
                rfl
              · show (((s2.frames.set v fr0).set v _).getD v emptyFrame).pinCount = 1
                rw [getD_set_self _ v _ (by rw [List.length_set]; exact hvlen2)]
                show ((s2.frames.set v fr0).getD v emptyFrame).pinCount + 1 = 1
                rw [e0]
                rfl
              · intro j hj
                show ((s2.frames.set v fr0).set v _).getD j emptyFrame = getFrame s2 j
                rw [getD_set_ne _ _ (fun hh => hj hh.symm),
                  getD_set_ne _ _ (fun hh => hj hh.symm)]
                rfl
              · rfl
              · rfl

theorem wf_create (s : PoolState) (newPid c : Nat) (vT fOk aOk : Bool)
    (h : WFPool s) : WFPool (createPage s newPid c vT fOk aOk).2 := by
  unfold createPage
  split
  · exact h
  next hguard =>
    obtain ⟨hwf1, ht1, hf1, hv1⟩ := findVictim_post s h
    cases hfv : findVictim s with
    | mk ov s1 =>
      rw [hfv] at hwf1 ht1 hf1 hv1
      cases ov with
      | none => exact hwf1
      | some v =>
        simp only
        obtain ⟨hvlen, hvrep, hvpin⟩ := hv1 v rfl
        obtain ⟨hwf2, hpost, hpfail⟩ := evict_post s1 v fOk hvrep hwf1
        by_cases hvt : vT = false
        · simp only [hvt, eq_self_iff_true, if_true]
          cases hev : evictFrame s1 v fOk with
          | mk ok s2 =>
            rw [hev] at hwf2
            cases ok with
            | false => exact hwf2
            | true => exact hwf2
        · simp only [if_neg hvt]
          cases hev : evictFrame s1 v fOk with
          | mk ok s2 =>
            rw [hev] at hwf2 hpost hpfail
            cases ok with
            | false => exact hwf2
            | true =>
              obtain ⟨hvempty, hrep2, hlen2, hlknone, hfrne⟩ := hpost rfl
              have hvlen2 : v < s2.frames.length := by
                rw [hlen2, hf1]
                exact hvlen
              have hvrep2 : v ∉ s2.replacer := by
                rw [hrep2]
                exact hvrep
              set fr0 : PFrame := frameReset (some ⟨newPid, c⟩) with hfr0
              have e0 : (s2.frames.set v fr0).getD v emptyFrame = fr0 :=
                getD_set_self s2.frames v fr0 hvlen2
              apply wf_install_abstract s2 _ v newPid ⟨newPid, c⟩ hwf2
              · show (((s2.frames.set v fr0).set v _).set v _).length =
                  s2.frames.length
                rw [List.length_set, List.length_set, List.length_set]
              · exact hvlen2
              · exact hvempty
              · exact hvrep2
              · show ((((s2.frames.set v fr0).set v _).set v _).getD v
                  emptyFrame).page = some ⟨newPid, c⟩
                rw [getD_set_self _ v _
                  (by rw [List.length_set, List.length_set]; exact hvlen2)]
                show ((((s2.frames.set v fr0).set v _).getD v emptyFrame)).page =
                  some ⟨newPid, c⟩
                rw [getD_set_self _ v _ (by rw [List.length_set]; exact hvlen2)]
                show ((s2.frames.set v fr0).getD v emptyFrame).page = some ⟨newPid, c⟩
                rw [e0]
                rfl
              · show ((((s2.frames.set v fr0).set v _).set v _).getD v
                  emptyFrame).pageId = newPid
                rw [getD_set_self _ v _
                  (by rw [List.length_set, List.length_set]; exact hvlen2)]
                show ((((s2.frames.set v fr0).set v _).getD v emptyFrame)).pageId =
                  newPid
                rw [getD_set_self _ v _ (by rw [List.length_set]; exact hvlen2)]
                show ((s2.frames.set v fr0).getD v emptyFrame).pageId = newPid
                rw [e0]
                rfl
              · show ((((s2.frames.set v fr0).set v _).set v _).getD v
                  emptyFrame).pinCount = 1
                rw [getD_set_self _ v _
                  (by rw [List.length_set, List.length_set]; exact hvlen2)]
                show ((((s2.frames.set v fr0).set v _).getD v emptyFrame)).pinCount =
                  1
                rw [getD_set_self _ v _ (by rw [List.length_set]; exact hvlen2)]
                show ((s2.frames.set v fr0).getD v emptyFrame).pinCount + 1 = 1
                rw [e0]
                rfl
              · intro j hj
                show (((s2.frames.set v fr0).set v _).set v _).getD j emptyFrame =
                  getFrame s2 j
                rw [getD_set_ne _ _ (fun hh => hj hh.symm),
                  getD_set_ne _ _ (fun hh => hj hh.symm),
                  getD_set_ne _ _ (fun hh => hj hh.symm)]
                rfl
              · rfl
              · rfl

theorem wf_delete (s : PoolState) (pid : Nat) (dOk : Bool) (h : WFPool s) :
    WFPool (deletePage s pid dOk).2 := by
  obtain ⟨hA, hB, hC, hD, hF⟩ := h
  unfold deletePage
  cases hlk : lookupPT s.pageTable pid with
  | none => exact ⟨hA, hB, hC, hD, hF⟩
  | some idx =>
    simp only
    split
    · exact ⟨hA, hB, hC, hD, hF⟩
    next hpin0 =>
      obtain ⟨hidx, hres, hpid⟩ := hC _ (lookupPT_some_mem hlk)
      simp only at hidx hres hpid
      have hself : (s.frames.set idx (frameReset none)).getD idx emptyFrame =
          frameReset none :=
        getD_set_self s.frames idx (frameReset none) hidx
      have hne : ∀ j : Nat, j ≠ idx →
          (s.frames.set idx (frameReset none)).getD j emptyFrame = getFrame s j := by
        intro j hj
        exact getD_set_ne s.frames (frameReset none) (fun hh => hj hh.symm)
      refine ⟨?_, ?_, ?_, ?_, ?_⟩
      · intro j hj
        have hjm : j ∈ s.replacer := (s.replacer.erase_sublist idx).subset hj
        have hjne : j ≠ idx := (hB.mem_erase_iff.mp hj).1
        obtain ⟨q1, q2, q3⟩ := hA j hjm
        refine ⟨by rw [List.length_set]; exact q1, ?_, ?_⟩
        · show ((s.frames.set idx (frameReset none)).getD j emptyFrame).page.isSome =
            true
          rw [hne j hjne]
          exact q2
        · show ((s.frames.set idx (frameReset none)).getD j emptyFrame).pinCount = 0
          rw [hne j hjne]
          exact q3
      · exact hB.erase idx
      · intro e he
        obtain ⟨hmem, hkey⟩ := mem_erasePT.mp he
        obtain ⟨q1, q2, q3⟩ := hC e hmem
        have hene : e.2 ≠ idx := by
          intro hh
          exact hkey (by rw [← q3, hh, hpid])
        refine ⟨by rw [List.length_set]; exact q1, ?_, ?_⟩
        · show ((s.frames.set idx (frameReset none)).getD e.2 emptyFrame).page.isSome =
            true
          rw [hne e.2 hene]
          exact q2
        · show ((s.frames.set idx (frameReset none)).getD e.2 emptyFrame).pageId = e.1
          rw [hne e.2 hene]
          exact q3
      · exact keys_nodup_erasePT pid hD
      · intro i hi hnone
        by_cases hij : i = idx
        · subst hij
          show ((s.frames.set i (frameReset none)).getD i emptyFrame).pinCount = 0
          rw [hself]
          rfl
        · rw [List.length_set] at hi
          show ((s.frames.set idx (frameReset none)).getD i emptyFrame).pinCount = 0
          have h2 : (getFrame s i).page = none := by
            rw [← hne i hij]
            exact hnone
          rw [hne i hij]
          exact hF i hi h2

theorem wf_flushOne (s : PoolState) (pid : Nat) (fOk : Bool) (h : WFPool s) :
    WFPool (flushPageOp s pid fOk).2 := by
  unfold flushPageOp
  cases hlk : lookupPT s.pageTable pid with
  | none => exact h
  | some idx =>
    simp only
    split
    · split
      · exact h
      · refine WFPool_congr s _ rfl rfl (List.length_set _ _ _) ?_ h
        intro i
        exact fields_after_set s idx { getFrame s idx with dirty := false } rfl rfl rfl i
    · exact h

/-- Every public call preserves the pool invariant. -/
theorem wf_applyPOp (s : PoolState) (op : POp) (h : WFPool s) :
    WFPool (applyPOp s op) := by
  cases op with
  | fetch pid c r f => exact wf_fetch s pid c r f h
  | create pid c v f a => exact wf_create s pid c v f a h
  | unpin pid d => exact wf_unpin s pid d h
  | flushOne pid f => exact wf_flushOne s pid f h
  | flushAll oks => exact wf_flushAll s _ h
  | delete pid d => exact wf_delete s pid d h

theorem getD_replicate_empty : ∀ (n i : Nat),
    (List.replicate n emptyFrame).getD i emptyFrame = emptyFrame
  | 0, _ => rfl
  | _ + 1, 0 => rfl
  | n + 1, i + 1 => getD_replicate_empty n i

/-- A fresh pool satisfies the invariant. -/
theorem wf_initPool (n : Nat) : WFPool (initPool n) := by
  refine ⟨?_, List.nodup_nil, ?_, List.nodup_nil, ?_⟩
  · intro i hi
    exact absurd hi (List.not_mem_nil i)
  · intro e he
    exact absurd he (List.not_mem_nil e)
  · intro i hi hnone
    have hg : getFrame (initPool n) i = emptyFrame := getD_replicate_empty n i
    rw [hg]
    rfl

theorem wf_runPool_aux (ops : List POp) :
    ∀ s, WFPool s → WFPool (ops.foldl applyPOp s) := by
  induction ops with
  | nil => intro s h; exact h
  | cons op rest ih =>
    intro s h
    rw [List.foldl_cons]
    exact ih _ (wf_applyPOp s op h)

/-- Every state reachable from a fresh pool satisfies the invariant. -/
theorem wf_runPool (n : Nat) (ops : List POp) : WFPool (runPool n ops) :=
  wf_runPool_aux ops (initPool n) (wf_initPool n)

/-- `unpinPage` never changes which page a frame holds. -/
theorem pages_unpin (s : PoolState) (pid : Nat) (d : Bool) (i : Nat) :
    (getFrame (unpinPage s pid d).2 i).page = (getFrame s i).page := by
  unfold unpinPage
  cases hlk : lookupPT s.pageTable pid with
  | none => rfl
  | some idx =>
    simp only
    split
    · show ((s.frames.set idx _).getD i emptyFrame).page = (getFrame s i).page
      rw [getD_set_fields]
      split
      · next hc =>
        obtain ⟨rfl, _⟩ := hc
        rfl
      · rfl
    · show ((s.frames.set idx _).getD i emptyFrame).page = (getFrame s i).page
      rw [getD_set_fields]
      split
      · next hc =>
        obtain ⟨rfl, _⟩ := hc
        rfl
      · rfl

/-- `flushPage` never changes which page a frame holds. -/
theorem pages_flushOne (s : PoolState) (pid : Nat) (fOk : Bool) (i : Nat) :
    (getFrame (flushPageOp s pid fOk).2 i).page = (getFrame s i).page := by
  unfold flushPageOp
  cases hlk : lookupPT s.pageTable pid with
  | none => rfl
  | some idx =>
    simp only
    split
    · split
      · rfl
      · show ((s.frames.set idx _).getD i emptyFrame).page = (getFrame s i).page
        rw [getD_set_fields]
        split
        · next hc =>
          obtain ⟨rfl, _⟩ := hc
          rfl
        · rfl
    · rfl

theorem pages_flushAll_aux (oks : Nat → Bool) :
    ∀ (entries : List (Nat × Nat)) (s : PoolState) (i : Nat),
      (getFrame (entries.foldl (fun st e =>
        let fr := getFrame st e.2
        if fr.dirty then
          if oks e.1 then
            { st with frames := st.frames.set e.2 { fr with dirty := false } }
          else st
        else st) s) i).page = (getFrame s i).page := by
  intro entries
  induction entries with
  | nil => intro s i; rfl
  | cons e rest ih =>
    intro s i
    rw [List.foldl_cons]
    refine (ih _ i).trans ?_
    simp only
    split
    · split
      · show ((s.frames.set e.2 _).getD i emptyFrame).page = (getFrame s i).page
        rw [getD_set_fields]
        split
        · next hc =>
          obtain ⟨rfl, _⟩ := hc
          rfl
        · rfl
      · rfl
    · rfl

/-- `flushAll` never changes which page a frame holds. -/
theorem pages_flushAll (s : PoolState) (oks : Nat → Bool) (i : Nat) :
    (getFrame (flushAllOp s oks) i).page = (getFrame s i).page :=
  pages_flushAll_aux oks s.pageTable s i

/-- `deletePage` leaves every pinned frame's page in place (it only resets the
frame caching the page when that frame is unpinned). -/
theorem pages_delete (s : PoolState) (pid : Nat) (dOk : Bool) (i : Nat)
    (hpin : 0 < (getFrame s i).pinCount) :
    (getFrame (deletePage s pid dOk).2 i).page = (getFrame s i).page := by
  unfold deletePage
  cases hlk : lookupPT s.pageTable pid with
  | none => rfl
  | some idx =>
    simp only
    split
    · rfl
    next hpin0 =>
      have hidxpin : (getFrame s idx).pinCount = 0 := by
        by_contra hc
        exact hpin0 hc
      have hne : idx ≠ i := by
        intro hh
        rw [hh] at hidxpin
        omega
      show ((s.frames.set idx (frameReset none)).getD i emptyFrame).page =
        (getFrame s i).page
      rw [getD_set_ne s.frames _ hne]
      rfl

/-- `evictFrame` reports failure only from branches that return the state
unchanged. -/
theorem evictFrame_fail (s : PoolState) (v : Nat) (fOk : Bool) :
    (evictFrame s v fOk).1 = false → (evictFrame s v fOk).2 = s := by
  simp only [evictFrame]
  split
  · intro hcon
    cases hcon
  · split
    · intro _
      rfl
    · split
      · intro _
        rfl
      · intro hcon
        cases hcon

/-- `fetchPage` on a miss leaves every pinned frame's page in place: the victim
always has pin count zero, so the frame written is never a pinned one. -/
theorem pages_fetch (s : PoolState) (pid c : Nat) (rOk fOk : Bool) (i : Nat)
    (h : WFPool s) (hpin : 0 < (getFrame s i).pinCount) :
    (getFrame (fetchPage s pid c rOk fOk).2 i).page = (getFrame s i).page := by
  unfold fetchPage
  cases hlk : lookupPT s.pageTable pid with
  | some idx =>
    simp only
    show ((s.frames.set idx _).getD i emptyFrame).page = (getFrame s i).page
    rw [getD_set_fields]
    split
    · next hc =>
      obtain ⟨rfl, _⟩ := hc
      rfl
    · rfl
  | none =>
    obtain ⟨hwf1, ht1, hf1, hv1⟩ := findVictim_post s h
    cases hfv : findVictim s with
    | mk ov s1 =>
      rw [hfv] at hwf1 ht1 hf1 hv1
      have hf1e : s1.frames = s.frames := hf1
      have hgf1 : ∀ j, getFrame s1 j = getFrame s j := by
        intro j
        show s1.frames.getD j emptyFrame = getFrame s j
        rw [hf1e]
        rfl
      cases ov with
      | none =>
        show (getFrame s1 i).page = (getFrame s i).page
        rw [hgf1 i]
      | some v =>
        simp only
        obtain ⟨hvlen, hvrep, hvpin⟩ := hv1 v rfl
        have hvne : v ≠ i := by
          intro hh
          rw [hh] at hvpin
          omega
        split
        · show (getFrame s1 i).page = (getFrame s i).page
          rw [hgf1 i]
        next hread =>
          obtain ⟨hwf2, hpost, hpfail⟩ := evict_post s1 v fOk hvrep hwf1
          cases hev : evictFrame s1 v fOk with
          | mk ok s2 =>
            rw [hev] at hwf2 hpost hpfail
            cases ok with
            | false =>
              have hs2 : s2 = s1 := hpfail rfl
              show (getFrame s2 i).page = (getFrame s i).page
              rw [hs2, hgf1 i]
            | true =>
              obtain ⟨hvempty, hrep2, hlen2, hlknone, hfrne⟩ := hpost rfl
              have hfr2 : getFrame s2 i = getFrame s1 i :=
                hfrne i (fun hh => hvne hh.symm)
              show (((s2.frames.set v _).set v _).getD i emptyFrame).page =
                (getFrame s i).page
              rw [getD_set_ne _ _ hvne, getD_set_ne _ _ hvne]
              show (getFrame s2 i).page = (getFrame s i).page
              rw [hfr2, hgf1 i]

/-- `createPage` leaves every pinned frame's page in place. -/
theorem pages_create (s : PoolState) (newPid c : Nat) (vT fOk aOk : Bool) (i : Nat)
    (h : WFPool s) (hpin : 0 < (getFrame s i).pinCount) :
    (getFrame (createPage s newPid c vT fOk aOk).2 i).page =
      (getFrame s i).page := by
  unfold createPage
  split
  · rfl
  next hguard =>
    obtain ⟨hwf1, ht1, hf1, hv1⟩ := findVictim_post s h
    cases hfv : findVictim s with
    | mk ov s1 =>
      rw [hfv] at hwf1 ht1 hf1 hv1
      have hf1e : s1.frames = s.frames := hf1
      have hgf1 : ∀ j, getFrame s1 j = getFrame s j := by
        intro j
        show s1.frames.getD j emptyFrame = getFrame s j
        rw [hf1e]
        rfl
      cases ov with
      | none =>
        show (getFrame s1 i).page = (getFrame s i).page
        rw [hgf1 i]
      | some v =>
        simp only
        obtain ⟨hvlen, hvrep, hvpin⟩ := hv1 v rfl
        have hvne : v ≠ i := by
          intro hh
          rw [hh] at hvpin
          omega
        obtain ⟨hwf2, hpost, hpfail⟩ := evict_post s1 v fOk hvrep hwf1
        by_cases hvt : vT = false
        · simp only [hvt, eq_self_iff_true, if_true]
          cases hev : evictFrame s1 v fOk with
          | mk ok s2 =>
            rw [hev] at hwf2 hpost hpfail
            cases ok with
            | false =>
              have hs2 : s2 = s1 := hpfail rfl
              show (getFrame s2 i).page = (getFrame s i).page
              rw [hs2, hgf1 i]
            | true =>
              have hfr2 : getFrame s2 i = getFrame s1 i :=
                (hpost rfl).2.2.2.2 i (fun hh => hvne hh.symm)
              show (getFrame s2 i).page = (getFrame s i).page
              rw [hfr2, hgf1 i]
        · simp only [if_neg hvt]
          cases hev : evictFrame s1 v fOk with
          | mk ok s2 =>
            rw [hev] at hwf2 hpost hpfail
            cases ok with
            | false =>
              have hs2 : s2 = s1 := hpfail rfl
              show (getFrame s2 i).page = (getFrame s i).page
              rw [hs2, hgf1 i]
            | true =>
              have hfr2 : getFrame s2 i = getFrame s1 i :=
                (hpost rfl).2.2.2.2 i (fun hh => hvne hh.symm)
              show ((((s2.frames.set v _).set v _).set v _).getD i
                emptyFrame).page = (getFrame s i).page
              rw [getD_set_ne _ _ hvne, getD_set_ne _ _ hvne,
                getD_set_ne _ _ hvne]
              show (getFrame s2 i).page = (getFrame s i).page
              rw [hfr2, hgf1 i]

/-- When every frame is resident and pinned, `findVictim` finds nothing: the
unused-frame scan fails and, by the invariant, the replacer is empty. -/
theorem no_room (s : PoolState) (h : WFPool s)
    (hall : ∀ j, j < s.frames.length → (getFrame s j).page.isSome = true ∧
      0 < (getFrame s j).pinCount) :
    (findVictim s).1 = none := by
  have hfind : (List.range s.frames.length).find?
      (fun i => (getFrame s i).page.isNone) = none := by
    rw [List.find?_eq_none]
    intro j hj
    have hjlt : j < s.frames.length := List.mem_range.mp hj
    have hsome := (hall j hjlt).1
    intro hc
    rw [Option.isNone_iff_eq_none] at hc
    rw [hc] at hsome
    cases hsome
  have hrep : s.replacer = [] := by
    cases hr : s.replacer with
    | nil => rfl
    | cons a t =>
      exfalso
      have hmem : a ∈ s.replacer := by
        rw [hr]
        exact List.mem_cons_self a t
      obtain ⟨q1, q2, q3⟩ := h.1 a hmem
      have hq := (hall a q1).2
      omega
  unfold findVictim
  rw [hfind, hrep]
  rfl

/-- When every frame is resident and pinned, a fetch miss returns nothing. -/
theorem fetch_full_none (s : PoolState) (pid c : Nat) (rOk fOk : Bool)
    (h : WFPool s)
    (hall : ∀ j, j < s.frames.length → (getFrame s j).page.isSome = true ∧
      0 < (getFrame s j).pinCount)
    (hlk : lookupPT s.pageTable pid = none) :
    (fetchPage s pid c rOk fOk).1 = none := by
  have hnr := no_room s h hall
  unfold fetchPage
  rw [hlk]
  cases hfv : findVictim s with
  | mk ov s1 =>
    rw [hfv] at hnr
    cases ov with
    | none => rfl
    | some v => exact Option.noConfusion hnr

/-- When every frame is resident and pinned, `createPage` returns nothing. -/
theorem create_full_none (s : PoolState) (newPid c : Nat) (vT fOk aOk : Bool)
    (h : WFPool s)
    (hall : ∀ j, j < s.frames.length → (getFrame s j).page.isSome = true ∧
      0 < (getFrame s j).pinCount) :
    (createPage s newPid c vT fOk aOk).1 = none := by
  have hnr := no_room s h hall
  unfold createPage
  split
  · rfl
  · cases hfv : findVictim s with
    | mk ov s1 =>
      rw [hfv] at hnr
      cases ov with
      | none => rfl
      | some v => exact Option.noConfusion hnr

/-- Reduction of `fetchPage` on a page-table miss, once the `findVictim`
result is known. -/
theorem fetchPage_miss_eq (s : PoolState) (pid c : Nat) (rOk fOk : Bool)
    (hmiss : lookupPT s.pageTable pid = none) (ov : Option Nat) (s1 : PoolState)
    (hfv : findVictim s = (ov, s1)) :
    fetchPage s pid c rOk fOk = ov.elim (none, s1) (fun v =>
      if rOk = false then (none, s1) else fetchMissEvict s1 v pid c fOk) := by
  unfold fetchPage
  rw [hmiss, hfv]
  cases ov with
  | none => rfl
  | some v => rfl

/-- A failing miss tail leaves the state it was given untouched. -/
theorem fetchMissEvict_fail (s1 : PoolState) (v pid c : Nat) (fOk : Bool)
    (hfail : (fetchMissEvict s1 v pid c fOk).1 = none) :
    (fetchMissEvict s1 v pid c fOk).2.frames = s1.frames ∧
    (fetchMissEvict s1 v pid c fOk).2.pageTable = s1.pageTable ∧
    (fetchMissEvict s1 v pid c fOk).2.replacer = s1.replacer := by
  unfold fetchMissEvict at hfail ⊢
  cases hev : evictFrame s1 v fOk with
  | mk ok s2 =>
    rw [hev] at hfail
    cases ok with
    | false =>
      have hs2 : s2 = s1 := by
        have hf := evictFrame_fail s1 v fOk
        rw [hev] at hf
        exact hf rfl
      rw [hs2]
      exact ⟨rfl, rfl, rfl⟩
    | true =>
      exfalso
      have hfail2 : (some (⟨pid, c⟩ : PPage) : Option PPage) = none := hfail
      exact Option.noConfusion hfail2

/-- `findVictim` never touches the frames or the page table, and either leaves
the replacer alone or pops its back. -/
theorem findVictim_shape (s : PoolState) :
    (findVictim s).2.frames = s.frames ∧
    (findVictim s).2.pageTable = s.pageTable ∧
    ((findVictim s).2.replacer = s.replacer ∨
     (findVictim s).2.replacer = s.replacer.dropLast) := by
  unfold findVictim
  cases hfind : (List.range s.frames.length).find?
      (fun i => (getFrame s i).page.isNone) with
  | some i => exact ⟨rfl, rfl, Or.inl rfl⟩
  | none =>
    cases hvic : LRU.victim s.replacer with
    | mk ov r =>
      cases ov with
      | none => exact ⟨rfl, rfl, Or.inl rfl⟩
      | some v =>
        obtain ⟨hmem, hdrop, hnotin⟩ := victim_eq_some hvic
        exact ⟨rfl, rfl, Or.inr hdrop⟩

end Pool

/-- C1 (code bug): after `insertRecord(1, [170], 1)` on a fresh `DataPage(1)`
the record is retrievable (`getRecord(0) = [170]`), but after a second
successful `insertRecord(2, [187], 1)` with a distinct key and payload,
`getRecord(0)` no longer yields the first payload and `getRecordType(0)` no
longer yields the inserted type: growing the directory moves the
`slots()` base over the first slot entry, so slot 0 is read from bytes that
were never written as a slot entry (the directory lookups `getSlotId` still
work, and the second record is intact). -/
theorem claim_C1_get_after_second_insert_is_corrupt :
    (Data.insertRecord (Data.newDataPage 1) 1 [170] 1).1 = some 0 ∧
    Data.getRecord (Data.insertRecord (Data.newDataPage 1) 1 [170] 1).2 0 =
      some [170] ∧
    Data.getRecordType (Data.insertRecord (Data.newDataPage 1) 1 [170] 1).2 0 =
      some 1 ∧
    (Data.insertRecord
      (Data.insertRecord (Data.newDataPage 1) 1 [170] 1).2 2 [187] 1).1 = some 1 ∧
    Data.getSlotId (Data.insertRecord
      (Data.insertRecord (Data.newDataPage 1) 1 [170] 1).2 2 [187] 1).2 1 = some 0 ∧
    Data.getSlotId (Data.insertRecord
      (Data.insertRecord (Data.newDataPage 1) 1 [170] 1).2 2 [187] 1).2 2 = some 1 ∧
    Data.getRecord (Data.insertRecord
      (Data.insertRecord (Data.newDataPage 1) 1 [170] 1).2 2 [187] 1).2 1 =
      some [187] ∧
    Data.getRecord (Data.insertRecord
      (Data.insertRecord (Data.newDataPage 1) 1 [170] 1).2 2 [187] 1).2 0 ≠
      some [170] ∧
    Data.getRecordType (Data.insertRecord
      (Data.insertRecord (Data.newDataPage 1) 1 [170] 1).2 2 [187] 1).2 0 ≠
      some 1 := by
  decide

/-- C3 (code bug): on the page holding two one-byte records with both records
deleted, `compact()` rebuilds the free-slot list as `firstFreeSlot = 0`,
`slots()[0].offset = 1`, but leaves the terminal deleted slot's `offset` at its
stale pre-compact value 0 instead of `INVALID_SLOT` (0xFFFF), making the
free-slot list cyclic. -/
theorem claim_C3_compact_terminal_link_not_invalid :
    (Data.deleteRecord (Data.insertRecord
      (Data.insertRecord (Data.newDataPage 1) 1 [170] 1).2 2 [187] 1).2 0).1 = true ∧
    (Data.deleteRecord (Data.deleteRecord (Data.insertRecord
      (Data.insertRecord (Data.newDataPage 1) 1 [170] 1).2 2 [187] 1).2 0).2 1).1 =
      true ∧
    Data.firstFreeSlot (Data.compact (Data.deleteRecord (Data.deleteRecord
      (Data.insertRecord (Data.insertRecord (Data.newDataPage 1) 1 [170] 1).2
        2 [187] 1).2 0).2 1).2).2 = 0 ∧
    Data.slotDeleted (Data.compact (Data.deleteRecord (Data.deleteRecord
      (Data.insertRecord (Data.insertRecord (Data.newDataPage 1) 1 [170] 1).2
        2 [187] 1).2 0).2 1).2).2 0 = true ∧
    Data.slotDeleted (Data.compact (Data.deleteRecord (Data.deleteRecord
      (Data.insertRecord (Data.insertRecord (Data.newDataPage 1) 1 [170] 1).2
        2 [187] 1).2 0).2 1).2).2 1 = true ∧
    Data.slotOffset (Data.compact (Data.deleteRecord (Data.deleteRecord
      (Data.insertRecord (Data.insertRecord (Data.newDataPage 1) 1 [170] 1).2
        2 [187] 1).2 0).2 1).2).2 0 = 1 ∧
    Data.slotOffset (Data.compact (Data.deleteRecord (Data.deleteRecord
      (Data.insertRecord (Data.insertRecord (Data.newDataPage 1) 1 [170] 1).2
        2 [187] 1).2 0).2 1).2).2 1 = 0 ∧
    Data.slotOffset (Data.compact (Data.deleteRecord (Data.deleteRecord
      (Data.insertRecord (Data.insertRecord (Data.newDataPage 1) 1 [170] 1).2
        2 [187] 1).2 0).2 1).2).2 1 ≠ Data.INVALID_SLOT := by
  decide

/-- C9 counterexample: on the page holding one freshly inserted 100-byte record
(no deletions at all), the claim's formula
`usedSpace > 0 ∧ (usedSpace − liveRecordBytes) * 4 > usedSpace` is true while
`needsCompact()` returns false — the code subtracts an additional
`itemCount * RECORD_HEADER_SIZE` before comparing. -/
theorem claim_C9_counterexample_one_record :
    Data.needsCompactClaim
      (Data.insertRecord (Data.newDataPage 1) 1 (List.replicate 100 65) 1).2 = true ∧
    Data.needsCompact
      (Data.insertRecord (Data.newDataPage 1) 1 (List.replicate 100 65) 1).2 =
      false := by
  decide

/-- C9 (amended): `needsCompact()` returns true exactly when `usedSpace > 0` and
`(usedSpace − (liveRecordBytes + itemCount * RECORD_HEADER_SIZE)) * 4 >
usedSpace`, where `liveRecordBytes` is the number of bytes occupied by live
records (their headers included, i.e. the live slots' `length` fields summed) —
the code counts each live record's 4-byte header a second time through
`itemCount * RECORD_HEADER_SIZE`.  Stated for states without `uint16_t`
overflow. -/
theorem claim_C9_needs_compact_formula (m : Data.Mem)
    (hfs : Data.freeSpace m ≤ 4096)
    (hsum : Data.itemCount m * 4 + Data.liveRecordBytes m < 65536) :
    Data.needsCompact m = true ↔
      (0 < 4096 - Data.freeSpace m ∧
        ((4096 - Data.freeSpace m : Int) -
          ((Data.liveRecordBytes m : Int) + (Data.itemCount m : Int) * 4)) * 4 >
          (4096 - Data.freeSpace m : Int)) := by
  unfold Data.needsCompact
  have h1 : sub16 4096 (Data.freeSpace m) = 4096 - Data.freeSpace m := by
    unfold sub16
    omega
  have h2 : (List.range (Data.slotCount m)).foldl
      (fun acc i => if Data.slotDeleted m i then acc
        else t16 (acc + Data.slotLength m i))
      (t16 (Data.itemCount m * 4)) =
      t16 (Data.itemCount m * 4 + Data.liveRecordBytes m) :=
    Data.actualData_fold m (Data.slotCount m) (Data.itemCount m * 4)
  have h3 : t16 (Data.itemCount m * 4 + Data.liveRecordBytes m) =
      Data.itemCount m * 4 + Data.liveRecordBytes m := by
    unfold t16
    omega
  rw [h1, h2, h3]
  simp only [Bool.and_eq_true, decide_eq_true_eq]
  constructor
  · rintro ⟨ha, hb⟩
    refine ⟨ha, ?_⟩
    push_cast at hb ⊢
    omega
  · rintro ⟨ha, hb⟩
    refine ⟨ha, ?_⟩
    push_cast at hb ⊢
    omega

/-- Closed instance of the amended C9 at the one-record page. -/
theorem claim_C9_needs_compact_formula_witness :
    Data.needsCompact
        (Data.insertRecord (Data.newDataPage 1) 1 (List.replicate 100 65) 1).2 =
        true ↔
      (0 < 4096 - Data.freeSpace
          (Data.insertRecord (Data.newDataPage 1) 1 (List.replicate 100 65) 1).2 ∧
        ((4096 - Data.freeSpace
            (Data.insertRecord (Data.newDataPage 1) 1
              (List.replicate 100 65) 1).2 : Int) -
          ((Data.liveRecordBytes
              (Data.insertRecord (Data.newDataPage 1) 1
                (List.replicate 100 65) 1).2 : Int) +
            (Data.itemCount
              (Data.insertRecord (Data.newDataPage 1) 1
                (List.replicate 100 65) 1).2 : Int) * 4)) * 4 >
          (4096 - Data.freeSpace
            (Data.insertRecord (Data.newDataPage 1) 1
              (List.replicate 100 65) 1).2 : Int)) :=
  claim_C9_needs_compact_formula
    (Data.insertRecord (Data.newDataPage 1) 1 (List.replicate 100 65) 1).2
    (by decide) (by decide)

/-- C4: For every page `p` of type DATA or INDEX whose id is below the file's
`pageCount`, `DiskManager::flushPage(p)` followed by `DiskManager::fetchPage(p.id())`
succeeds and yields a page whose full 4096-byte buffer equals `p`'s
byte for byte. -/
theorem claim_C4_flush_fetch_roundtrip (f : Disk.File) (h : Disk.DatabaseHeader)
    (p : List Nat) (hlen : p.length = 4096)
    (htype : Disk.imageType p = 2 ∨ Disk.imageType p = 1)
    (hid : Disk.imagePageId p < h.pageCount) :
    Disk.fetchPage (Disk.flushPage f p) h (Disk.imagePageId p) = some p := by
  unfold Disk.fetchPage Disk.flushPage
  rw [if_neg (by omega)]
  have hread : Disk.readBytes
      (Disk.writeBytes f (Disk.getOffset (Disk.imagePageId p)) p)
      (Disk.getOffset (Disk.imagePageId p)) Disk.PAGE_SIZE = p := by
    have := Disk.readBytes_writeBytes f (Disk.getOffset (Disk.imagePageId p)) p
    rwa [hlen] at this
  rw [hread, if_pos htype]

/-- Closed instance of C4: a DATA page image of id 0 written and re-read. -/
theorem claim_C4_flush_fetch_roundtrip_witness :
    Disk.fetchPage
      (Disk.flushPage (fun _ => 0) (2 :: 0 :: 0 :: 0 :: 0 :: List.replicate 4091 7))
      ⟨Disk.DB_MAGIC, 1, 4096, 1, 0, 0⟩
      (Disk.imagePageId (2 :: 0 :: 0 :: 0 :: 0 :: List.replicate 4091 7)) =
      some (2 :: 0 :: 0 :: 0 :: 0 :: List.replicate 4091 7) :=
  claim_C4_flush_fetch_roundtrip (fun _ => 0) ⟨Disk.DB_MAGIC, 1, 4096, 1, 0, 0⟩
    (2 :: 0 :: 0 :: 0 :: 0 :: List.replicate 4091 7)
    (by simp only [List.length_cons, List.length_replicate]) (Or.inl rfl)
    (by show (0 : Nat) + 256 * 0 + 65536 * 0 + 16777216 * 0 < 1; norm_num)

/-- C10: The `DiskManager` free-page list is in-memory only: closing (destructor
writes only the header when dirty) and reopening (reads only the header) yields a
manager with an empty free list, whose first `allocatePage` returns
`header.pageCount` — never any page id deallocated before the close (those are all
below `pageCount`). -/
theorem claim_C10_free_list_not_persisted (dm : Disk.DiskManagerM) (f : Disk.File)
    (hmagic : dm.header.magic = Disk.DB_MAGIC)
    (hver : dm.header.version = Disk.DB_VERSION)
    (hps : dm.header.pageSize = Disk.PAGE_SIZE)
    (hdirty : dm.dirty = true)
    (hpc : dm.header.pageCount < 4294967296)
    (hfree : ∀ d ∈ dm.freePages, d < dm.header.pageCount) :
    ∃ dm', Disk.openExisting (Disk.closeDM dm f) = some dm' ∧
      dm'.freePages = [] ∧
      (Disk.allocatePage dm').1 = dm.header.pageCount ∧
      ∀ d ∈ dm.freePages, (Disk.allocatePage dm').1 ≠ d := by
  have hclose : Disk.closeDM dm f = Disk.writeHeader f dm.header := by
    unfold Disk.closeDM
    rw [hdirty]
    rfl
  have h0 := Disk.read32_writeHeader_0 f dm.header
  have h4 := Disk.read32_writeHeader_4 f dm.header
  have h8 := Disk.read32_writeHeader_8 f dm.header
  have h12 := Disk.read32_writeHeader_12 f dm.header
  rw [hmagic] at h0
  rw [hver] at h4
  rw [hps] at h8
  have h0' : Disk.read32 (Disk.writeHeader f dm.header) 0 = Disk.DB_MAGIC := by
    rw [h0]; rfl
  have h4' : Disk.read32 (Disk.writeHeader f dm.header) 4 = Disk.DB_VERSION := by
    rw [h4]; rfl
  have h8' : Disk.read32 (Disk.writeHeader f dm.header) 8 = Disk.PAGE_SIZE := by
    rw [h8]; rfl
  have h12' : Disk.read32 (Disk.writeHeader f dm.header) 12 = dm.header.pageCount := by
    rw [h12, Nat.mod_eq_of_lt hpc]
  have hparse : (Disk.parseHeader (Disk.writeHeader f dm.header)).magic = Disk.DB_MAGIC ∧
      (Disk.parseHeader (Disk.writeHeader f dm.header)).version = Disk.DB_VERSION ∧
      (Disk.parseHeader (Disk.writeHeader f dm.header)).pageSize = Disk.PAGE_SIZE ∧
      (Disk.parseHeader (Disk.writeHeader f dm.header)).pageCount = dm.header.pageCount :=
    ⟨h0', h4', h8', h12'⟩
  obtain ⟨hm, hv, hs, hc⟩ := hparse
  have hrh : Disk.readHeader (Disk.writeHeader f dm.header) =
      some (Disk.parseHeader (Disk.writeHeader f dm.header)) := by
    unfold Disk.readHeader
    rw [if_neg (by simp [hm]), if_neg (by simp [hv]), if_neg (by simp [hs])]
  refine ⟨{ dirty := false, header := Disk.parseHeader (Disk.writeHeader f dm.header),
            freePages := [] }, ?_, rfl, ?_, ?_⟩
  · rw [hclose]
    unfold Disk.openExisting
    rw [hrh]
    rfl
  · unfold Disk.allocatePage
    simp [hc]
  · intro d hd
    unfold Disk.allocatePage
    simp only [List.getLast?_nil]
    have := hfree d hd
    simp [hc]
    omega

/-- Closed instance of C10: one page allocated, then deallocated, then the file
is closed and reopened. -/
theorem claim_C10_free_list_not_persisted_witness :
    ∃ dm', Disk.openExisting
        (Disk.closeDM ⟨true, ⟨Disk.DB_MAGIC, 1, 4096, 1, 0xDEADBEEF, 0⟩, [0]⟩
          (fun _ => 0)) = some dm' ∧
      dm'.freePages = [] ∧
      (Disk.allocatePage dm').1 = 1 ∧
      ∀ d ∈ ([0] : List Nat), (Disk.allocatePage dm').1 ≠ d :=
  claim_C10_free_list_not_persisted
    ⟨true, ⟨Disk.DB_MAGIC, 1, 4096, 1, 0xDEADBEEF, 0⟩, [0]⟩ (fun _ => 0)
    rfl rfl rfl rfl (by norm_num) (by decide)

/-- C5: For every `IndexPage` and every sequence of `insertKey`/`removeKey` calls in
which no `insertKey` uses a key already present, the entry array stays strictly
ascending by key and `itemCount * sizeof(IndexEntry) + headerSize ≤ 4096`
(equivalently `itemCount ≤ maxEntries()`). -/
theorem claim_C5_index_sorted_and_bounded (id0 : Nat) (leaf : Bool) (lvl : Nat)
    (ops : List Index.IOp)
    (h : Index.noDupInserts (Index.newIndexPage id0 leaf lvl) ops = true) :
    (Index.keys (Index.runIOps (Index.newIndexPage id0 leaf lvl) ops)).Chain' (· < ·) ∧
    (Index.runIOps (Index.newIndexPage id0 leaf lvl) ops).entries.length *
      Index.ENTRY_SIZE + Index.INDEX_HEADER_SIZE ≤ 4096 ∧
    (Index.runIOps (Index.newIndexPage id0 leaf lvl) ops).entries.length ≤
      Index.maxEntries := by
  have hwf0 : Index.WFIdx (Index.newIndexPage id0 leaf lvl) := by
    constructor
    · simp [Index.keys, Index.newIndexPage]
    · simp [Index.newIndexPage]
  obtain ⟨hpw, hfs⟩ := Index.wf_runIOps ops _ hwf0 h
  have hmax : Index.maxEntries = 290 := rfl
  have e1 : Index.ENTRY_SIZE = 14 := rfl
  have e2 : Index.INDEX_HEADER_SIZE = 28 := rfl
  have e3 : Index.MAX_FREE_SPACE = 4068 := rfl
  rw [e1, e3] at hfs
  refine ⟨hpw.chain', ?_, ?_⟩
  · rw [e1, e2]
    omega
  · rw [hmax]
    omega

/-- Closed instance of C5 at a concrete call sequence. -/
theorem claim_C5_index_sorted_and_bounded_witness :
    (Index.keys (Index.runIOps (Index.newIndexPage 1 true 0)
      [Index.IOp.ins 10 100, Index.IOp.ins 5 50, Index.IOp.rem 10])).Chain' (· < ·) ∧
    (Index.runIOps (Index.newIndexPage 1 true 0)
      [Index.IOp.ins 10 100, Index.IOp.ins 5 50, Index.IOp.rem 10]).entries.length *
      Index.ENTRY_SIZE + Index.INDEX_HEADER_SIZE ≤ 4096 ∧
    (Index.runIOps (Index.newIndexPage 1 true 0)
      [Index.IOp.ins 10 100, Index.IOp.ins 5 50, Index.IOp.rem 10]).entries.length ≤
      Index.maxEntries :=
  claim_C5_index_sorted_and_bounded 1 true 0
    [Index.IOp.ins 10 100, Index.IOp.ins 5 50, Index.IOp.rem 10] (by decide)

/-- C6: For every `IndexPage` with `itemCount = n ≥ 1`, `split` on a freshly
constructed `newPage` moves entries `[n/2, n)` to the new page, keeps `[0, n/2)`,
sets `newPage.next` to this page's old next link, `newPage.prev` to this page's id,
this page's next to `newPage`'s id, leaves the item counts summing to `n`, and
returns the key that was at index `n/2` before the split. -/
theorem claim_C6_index_split (p : Index.IndexPageM) (nid : Nat) (leaf : Bool)
    (lvl : Nat) (n : Nat) (hn : p.entries.length = n) (hpos : 1 ≤ n) :
    (Index.split p (Index.newIndexPage nid leaf lvl)).2.1.entries =
        p.entries.drop (n / 2) ∧
    (Index.split p (Index.newIndexPage nid leaf lvl)).1.entries =
        p.entries.take (n / 2) ∧
    (Index.split p (Index.newIndexPage nid leaf lvl)).2.1.nextPageId = p.nextPageId ∧
    (Index.split p (Index.newIndexPage nid leaf lvl)).2.1.prevPageId = p.pageId ∧
    (Index.split p (Index.newIndexPage nid leaf lvl)).1.nextPageId = nid ∧
    (Index.split p (Index.newIndexPage nid leaf lvl)).1.entries.length +
        (Index.split p (Index.newIndexPage nid leaf lvl)).2.1.entries.length = n ∧
    (Index.split p (Index.newIndexPage nid leaf lvl)).2.2 =
        (p.entries.get ⟨n / 2, by rw [hn]; exact Nat.div_lt_self hpos one_lt_two⟩).key := by
  subst hn
  have hlt : p.entries.length / 2 < p.entries.length :=
    Nat.div_lt_self hpos one_lt_two
  have hdrop : p.entries.drop (p.entries.length / 2) =
      p.entries.get ⟨p.entries.length / 2, hlt⟩ ::
        p.entries.drop (p.entries.length / 2 + 1) := by
    rw [List.get_eq_getElem]
    exact List.drop_eq_getElem_cons hlt
  refine ⟨rfl, rfl, rfl, rfl, rfl, ?_, ?_⟩
  · simp only [Index.split, List.length_take, List.length_drop]
    omega
  · show (match p.entries.drop (p.entries.length / 2) with
      | [] => 0
      | e :: _ => e.key) = _
    rw [hdrop]

/-- Closed instance of C6 at a concrete two-entry page. -/
theorem claim_C6_index_split_witness :
    (Index.split ⟨1, true, 0, 3, 0, 0, 4040, [⟨5, 50, 0⟩, ⟨9, 90, 0⟩]⟩
        (Index.newIndexPage 2 true 0)).2.1.entries =
      ([⟨5, 50, 0⟩, ⟨9, 90, 0⟩] : List Index.IndexEntry).drop (2 / 2) ∧
    (Index.split ⟨1, true, 0, 3, 0, 0, 4040, [⟨5, 50, 0⟩, ⟨9, 90, 0⟩]⟩
        (Index.newIndexPage 2 true 0)).1.entries =
      ([⟨5, 50, 0⟩, ⟨9, 90, 0⟩] : List Index.IndexEntry).take (2 / 2) ∧
    (Index.split ⟨1, true, 0, 3, 0, 0, 4040, [⟨5, 50, 0⟩, ⟨9, 90, 0⟩]⟩
        (Index.newIndexPage 2 true 0)).2.1.nextPageId = 3 ∧
    (Index.split ⟨1, true, 0, 3, 0, 0, 4040, [⟨5, 50, 0⟩, ⟨9, 90, 0⟩]⟩
        (Index.newIndexPage 2 true 0)).2.1.prevPageId = 1 ∧
    (Index.split ⟨1, true, 0, 3, 0, 0, 4040, [⟨5, 50, 0⟩, ⟨9, 90, 0⟩]⟩
        (Index.newIndexPage 2 true 0)).1.nextPageId = 2 ∧
    (Index.split ⟨1, true, 0, 3, 0, 0, 4040, [⟨5, 50, 0⟩, ⟨9, 90, 0⟩]⟩
        (Index.newIndexPage 2 true 0)).1.entries.length +
      (Index.split ⟨1, true, 0, 3, 0, 0, 4040, [⟨5, 50, 0⟩, ⟨9, 90, 0⟩]⟩
        (Index.newIndexPage 2 true 0)).2.1.entries.length = 2 ∧
    (Index.split ⟨1, true, 0, 3, 0, 0, 4040, [⟨5, 50, 0⟩, ⟨9, 90, 0⟩]⟩
        (Index.newIndexPage 2 true 0)).2.2 =
      (([⟨5, 50, 0⟩, ⟨9, 90, 0⟩] : List Index.IndexEntry).get ⟨2 / 2, by decide⟩).key :=
  claim_C6_index_split ⟨1, true, 0, 3, 0, 0, 4040, [⟨5, 50, 0⟩, ⟨9, 90, 0⟩]⟩
    2 true 0 2 rfl (by decide)

/-- C7: For every history of `LRUReplacer` pin and unpin calls, successive `victim()`
calls remove and return the tracked frames in exactly the order of their most recent
unpin (least recently unpinned first): the drained sequence has no duplicates, contains
exactly the frames whose last mentioning call was an unpin, and is strictly increasing
in last-unpin position; `victim` on an empty replacer returns nothing; and after
`unpin(1); unpin(2); unpin(3); unpin(1)` the victims come out `2, 3, 1`. -/
theorem claim_C7_lru_victims_in_unpin_order (ops : List LRU.Op) :
    (LRU.drain (LRU.run ops)).Nodup ∧
    (∀ f, f ∈ LRU.drain (LRU.run ops) ↔ LRU.tracked ops f) ∧
    (LRU.drain (LRU.run ops)).Pairwise
      (fun a b => LRU.lastUnpinPos ops a < LRU.lastUnpinPos ops b) ∧
    (LRU.victim []).1 = none ∧
    LRU.drain (LRU.run
      [LRU.Op.unpin 1, LRU.Op.unpin 2, LRU.Op.unpin 3, LRU.Op.unpin 1]) = [2, 3, 1] := by
  obtain ⟨hnd, hmem, hpw⟩ := LRU.inv_holds ops
  rw [LRU.drain_eq_reverse]
  refine ⟨List.nodup_reverse.mpr hnd, ?_, ?_, rfl, by decide⟩
  · intro f
    rw [List.mem_reverse]
    exact hmem f
  · exact List.pairwise_reverse.mpr hpw

/-- C2 counterexample: on a reachable one-frame pool whose only frame is
unpinned (so it sits in the replacer), a `fetchPage` miss whose disk read fails
returns nothing — but the replacer has lost its entry: `findVictim` pops the
LRU list before the read, and the failure path never restores it, refuting
"the replacer's set of evictable frames is unchanged". -/
theorem claim_C2_counterexample_replacer_shrinks :
    Pool.lookupPT (Pool.runPool 1 [Pool.POp.create 5 0 true true true,
        Pool.POp.unpin 5 false]).pageTable 7 = none ∧
    (Pool.fetchPage (Pool.runPool 1 [Pool.POp.create 5 0 true true true,
        Pool.POp.unpin 5 false]) 7 3 false true).1 = none ∧
    ¬ (Pool.fetchPage (Pool.runPool 1 [Pool.POp.create 5 0 true true true,
        Pool.POp.unpin 5 false]) 7 3 false true).2.replacer =
      (Pool.runPool 1 [Pool.POp.create 5 0 true true true,
        Pool.POp.unpin 5 false]).replacer := by
  decide

/-- C2 (amended): a failing `fetchPage` miss leaves the frames and the page
table exactly as before, and leaves the replacer either unchanged or with its
least-recently-unpinned entry (its back) popped. -/
theorem claim_C2_fetch_fail_state (s : Pool.PoolState) (pid c : Nat)
    (rOk fOk : Bool)
    (hmiss : Pool.lookupPT s.pageTable pid = none)
    (hfail : (Pool.fetchPage s pid c rOk fOk).1 = none) :
    (Pool.fetchPage s pid c rOk fOk).2.frames = s.frames ∧
    (Pool.fetchPage s pid c rOk fOk).2.pageTable = s.pageTable ∧
    ((Pool.fetchPage s pid c rOk fOk).2.replacer = s.replacer ∨
     (Pool.fetchPage s pid c rOk fOk).2.replacer = s.replacer.dropLast) := by
  obtain ⟨hsf, hst, hsr⟩ := Pool.findVictim_shape s
  cases hfv : Pool.findVictim s with
  | mk ov s1 =>
    have heq := Pool.fetchPage_miss_eq s pid c rOk fOk hmiss ov s1 hfv
    rw [heq] at hfail ⊢
    rw [hfv] at hsf hst hsr
    have hf1 : s1.frames = s.frames := hsf
    have ht1 : s1.pageTable = s.pageTable := hst
    have hr1 : s1.replacer = s.replacer ∨ s1.replacer = s.replacer.dropLast := hsr
    cases ov with
    | none => exact ⟨hf1, ht1, hr1⟩
    | some v =>
      cases rOk with
      | false => exact ⟨hf1, ht1, hr1⟩
      | true =>
        have hfail2 : (Pool.fetchMissEvict s1 v pid c fOk).1 = none := hfail
        obtain ⟨h1, h2, h3⟩ := Pool.fetchMissEvict_fail s1 v pid c fOk hfail2
        exact ⟨h1.trans hf1, h2.trans ht1,
          hr1.imp (fun hh => h3.trans hh) (fun hh => h3.trans hh)⟩

/-- Closed instance of the amended C2 at the counterexample state: the frames
and table survive, and the replacer is the original's `dropLast`. -/
theorem claim_C2_fetch_fail_state_witness :
    Pool.lookupPT (Pool.runPool 1 [Pool.POp.create 5 0 true true true,
        Pool.POp.unpin 5 false]).pageTable 7 = none ∧
    (Pool.fetchPage (Pool.runPool 1 [Pool.POp.create 5 0 true true true,
        Pool.POp.unpin 5 false]) 7 3 false true).1 = none ∧
    ((Pool.fetchPage (Pool.runPool 1 [Pool.POp.create 5 0 true true true,
        Pool.POp.unpin 5 false]) 7 3 false true).2.frames =
      (Pool.runPool 1 [Pool.POp.create 5 0 true true true,
        Pool.POp.unpin 5 false]).frames ∧
     (Pool.fetchPage (Pool.runPool 1 [Pool.POp.create 5 0 true true true,
        Pool.POp.unpin 5 false]) 7 3 false true).2.pageTable =
      (Pool.runPool 1 [Pool.POp.create 5 0 true true true,
        Pool.POp.unpin 5 false]).pageTable ∧
     ((Pool.fetchPage (Pool.runPool 1 [Pool.POp.create 5 0 true true true,
        Pool.POp.unpin 5 false]) 7 3 false true).2.replacer =
      (Pool.runPool 1 [Pool.POp.create 5 0 true true true,
        Pool.POp.unpin 5 false]).replacer ∨
      (Pool.fetchPage (Pool.runPool 1 [Pool.POp.create 5 0 true true true,
        Pool.POp.unpin 5 false]) 7 3 false true).2.replacer =
      (Pool.runPool 1 [Pool.POp.create 5 0 true true true,
        Pool.POp.unpin 5 false]).replacer.dropLast)) :=
  ⟨by decide, by decide,
   claim_C2_fetch_fail_state
     (Pool.runPool 1 [Pool.POp.create 5 0 true true true, Pool.POp.unpin 5 false])
     7 3 false true (by decide) (by decide)⟩

/-- C8: In every state reachable by `BufferPool` operations, a frame whose pin
count is positive is never evicted — no operation changes which page it holds —
and when every frame is resident and pinned, a `fetchPage` miss and
`createPage` both return nothing. -/
theorem claim_C8_pinned_never_evicted (n : Nat) (ops : List Pool.POp)
    (op : Pool.POp) (i : Nat)
    (hpin : 0 < (Pool.getFrame (Pool.runPool n ops) i).pinCount) :
    (Pool.getFrame (Pool.applyPOp (Pool.runPool n ops) op) i).page =
      (Pool.getFrame (Pool.runPool n ops) i).page ∧
    ((∀ j, j < (Pool.runPool n ops).frames.length →
        (Pool.getFrame (Pool.runPool n ops) j).page.isSome = true ∧
        0 < (Pool.getFrame (Pool.runPool n ops) j).pinCount) →
      ∀ pid newPid c c2 rOk fOk vT aOk,
        Pool.lookupPT (Pool.runPool n ops).pageTable pid = none →
        (Pool.fetchPage (Pool.runPool n ops) pid c rOk fOk).1 = none ∧
        (Pool.createPage (Pool.runPool n ops) newPid c2 vT fOk aOk).1 = none) := by
  have hwf : Pool.WFPool (Pool.runPool n ops) := Pool.wf_runPool n ops
  constructor
  · cases op with
    | fetch pid c r f => exact Pool.pages_fetch _ pid c r f i hwf hpin
    | create pid c v f a => exact Pool.pages_create _ pid c v f a i hwf hpin
    | unpin pid d => exact Pool.pages_unpin _ pid d i
    | flushOne pid f => exact Pool.pages_flushOne _ pid f i
    | flushAll oks => exact Pool.pages_flushAll _ _ i
    | delete pid d => exact Pool.pages_delete _ pid d i hpin
  · intro hall pid newPid c c2 rOk fOk vT aOk hlk
    exact ⟨Pool.fetch_full_none _ pid c rOk fOk hwf hall hlk,
      Pool.create_full_none _ newPid c2 vT fOk aOk hwf hall⟩

/-- Closed instance of C8 on a fully pinned one-frame pool. -/
theorem claim_C8_pinned_never_evicted_witness :
    0 < (Pool.getFrame (Pool.runPool 1 [Pool.POp.create 5 0 true true true])
      0).pinCount ∧
    ((Pool.getFrame (Pool.applyPOp
        (Pool.runPool 1 [Pool.POp.create 5 0 true true true])
        (Pool.POp.fetch 7 1 true true)) 0).page =
      (Pool.getFrame (Pool.runPool 1 [Pool.POp.create 5 0 true true true])
        0).page ∧
     ((∀ j, j < (Pool.runPool 1
          [Pool.POp.create 5 0 true true true]).frames.length →
        (Pool.getFrame (Pool.runPool 1 [Pool.POp.create 5 0 true true true])
          j).page.isSome = true ∧
        0 < (Pool.getFrame (Pool.runPool 1 [Pool.POp.create 5 0 true true true])
          j).pinCount) →
      ∀ pid newPid c c2 rOk fOk vT aOk,
        Pool.lookupPT (Pool.runPool 1
          [Pool.POp.create 5 0 true true true]).pageTable pid = none →
        (Pool.fetchPage (Pool.runPool 1 [Pool.POp.create 5 0 true true true])
          pid c rOk fOk).1 = none ∧
        (Pool.createPage (Pool.runPool 1 [Pool.POp.create 5 0 true true true])
          newPid c2 vT fOk aOk).1 = none)) :=
  ⟨by decide,
   claim_C8_pinned_never_evicted 1 [Pool.POp.create 5 0 true true true]
     (Pool.POp.fetch 7 1 true true) 0 (by decide)⟩

end PulseDB
